import Mathlib

/-!
Verification development for the postflow scheduling and publishing core.

The JavaScript sources are shallowly embedded as executable Lean functions:

* `modules/scheduling/recurringSchedule.js` — the recurrence-rule evaluator
  (`getLocalParts`, `localToUtc`, `getNextSlotTimes`, `getNextSlotTime`);
* `modules/scheduling/slotAllocator.service.js` — the slot allocator
  (`getNextAvailableSlot`, `countScheduledSlotsInRange`, `getDayStartInUtc`,
  `allocateSlotForPost`);
* `modules/publishing/publish.service.js` and `jobs/publish.job.js` — the
  publish orchestrator and job processor;
* `modules/connections/connection.service.js` — the token broker
  (`getValidAccessToken`);
* `modules/connections/token.service.js` — the credential vault
  (`encrypt`/`decrypt` framing over AES-256-GCM).

Modelling conventions:

* Instants are `Int` milliseconds since the Unix epoch (the JS `Date.getTime`
  value).  All divisions use `Int.ediv`/`Int.emod`, which agree with floor
  division for the positive divisors used here.
* A timezone is modelled by its UTC-offset function `ofs : Int → Int`
  (milliseconds east of UTC, as a function of an epoch instant).  The code
  derives local wall-clock fields via `Intl`/`toLocaleString`; under the
  deployment assumption that the server runs in UTC, the `localToUtc` trick in
  the source computes `L - ofs L` where `L` is the local wall time reparsed as
  a UTC instant, and local parts of an instant `t` are the calendar fields of
  `t + ofs t`.  A fixed-offset zone is `ofs = const`; zones with DST
  transitions are offset functions that step at the transition instant.
* Civil dates are represented by their epoch day number (the value JS
  manipulates via `new Date(y, m, d + offset, …)` normalisation together with
  `getFullYear`/`getMonth`/`getDate`); the Gregorian triple ↔ day-number
  bijection is the standard one and the code uses the triple only to add whole
  days and to rebuild wall-clock times, so the day number is a faithful
  isomorphic representation.
* Database collections are in-memory lists of documents; Mongo query filters
  become Boolean predicates, `findOne`/`find?` scans, `findOneAndUpdate`
  keyed upserts.  External collaborators (platform adapters, the encryption
  key schedule) are oracle parameters, as in the architecture's collaborator
  contracts.
* JS truthiness on strings (where `''` is falsy, e.g. `err.code || 'X'`) is
  modelled explicitly by `jsOr` / `jsStrTruthy`.
-/

namespace Postflow

/-- Milliseconds per minute. -/
def msMin : Int := 60000

/-- Milliseconds per hour. -/
def msHour : Int := 3600000

/-- Milliseconds per day. -/
def msDay : Int := 86400000

/-- A timezone, modelled by its UTC-offset function in milliseconds east of
UTC, as a function of the epoch instant at which the offset is sampled.
`recurringSchedule.js` samples it both at true instants (`getLocalParts`) and
at wall-times-reparsed-as-UTC (`localToUtc`'s `toLocaleString` trick). -/
structure Tz where
  ofs : Int → Int

/-- A local time slot from `accountSchedule.model.js` (`timeSlotSchema`):
`hour` 0–23, `minute` 0–59. -/
structure TimeSlot where
  hour : Nat
  minute : Nat
deriving DecidableEq

/-- The recurrence-rule fields of an `AccountSchedule` document that
`recurringSchedule.js` reads: `timeSlots`, `daysOfWeek`, `timezone`,
plus `maxPostsPerDay` used by the allocator. -/
structure Schedule where
  timeSlots : List TimeSlot
  daysOfWeek : List Nat
  timezone : Tz
  maxPostsPerDay : Nat

/-- The schema validations of `accountSchedule.model.js`: hours 0–23,
minutes 0–59, `daysOfWeek` unique integers 0–6. -/
def Schedule.Valid (s : Schedule) : Prop :=
  (∀ t ∈ s.timeSlots, t.hour < 24 ∧ t.minute < 60) ∧
  (∀ d ∈ s.daysOfWeek, d < 7) ∧ s.daysOfWeek.Nodup

/-- Local wall-clock fields of an instant, with the civil date as an epoch day
number (`getLocalParts` in `recurringSchedule.js` returns the year/month/date
triple plus `dayOfWeek`, `hour`, `minute`; the triple is collapsed to its day
number, see the module conventions). -/
structure LocalParts where
  day : Int
  dayOfWeek : Int
  hour : Int
  minute : Int
deriving DecidableEq

/-- `getLocalParts(dateUtc, tz)` — local calendar fields of a UTC instant in a
timezone.  Epoch day 0 (1970-01-01) is a Thursday, so `dayOfWeek = (day + 4)
mod 7` with the source's Sunday = 0 convention. -/
def getLocalParts (t : Int) (tz : Tz) : LocalParts :=
  let l := t + tz.ofs t
  { day := l / msDay
    dayOfWeek := (l / msDay + 4) % 7
    hour := l % msDay / msHour
    minute := l % msHour / msMin }

/-- `localToUtc(year, month, date, hour, minute, tz)` — convert a local
wall-clock time to UTC.  The source computes the zone offset by reformatting
the wall time (parsed as a UTC instant `l`) through `toLocaleString`, which
yields `tz.ofs l`; the result is `l - tz.ofs l`.  The `tz === 'UTC'` fast
path is the `ofs = 0` case of the same expression. -/
def localToUtc (day hour minute : Int) (tz : Tz) : Int :=
  let l := day * msDay + hour * msHour + minute * msMin
  l - tz.ofs l

/-- Concatenation of the images of a list under a list-valued function
(the nested `for` loops that `push` candidates in `getNextSlotTimes`). -/
def listFlat {α β : Type} (f : α → List β) : List α → List β
  | [] => []
  | a :: l => f a ++ listFlat f l

/-- Active weekday list used by `getNextSlotTimes`:
`[...new Set(daysOfWeek)].sort((a,b) => a-b)` when non-empty, else all seven
days.  JS dedups keeping first occurrences and then sorts numerically; since
only the sorted order of the underlying set matters, `dedup` followed by
`insertionSort` produces the same list. -/
def daysListOf (s : Schedule) : List Nat :=
  if s.daysOfWeek = [] then [0, 1, 2, 3, 4, 5, 6]
  else List.insertionSort (· ≤ ·) s.daysOfWeek.dedup

/-- One candidate instant of the nested loop body in `getNextSlotTimes`:
day offset to the requested weekday (wrapping forward, `+7` for week 1),
then `localToUtc` at the slot's wall-clock time. -/
def slotCandidate (startP : LocalParts) (tz : Tz) (week : Nat) (dow : Nat)
    (slot : TimeSlot) : Int :=
  let d0 : Int := (dow : Int) - startP.dayOfWeek
  let d1 : Int := if d0 < 0 then d0 + 7 else d0
  let dOff : Int := if week = 1 then d1 + 7 else d1
  localToUtc (startP.day + dOff) slot.hour slot.minute tz

/-- The dedup-and-truncate loop at the end of `getNextSlotTimes`: walk the
sorted candidates, stop once `count` outputs were produced, keep each value
once (`seen` mirrors the JS `Set`, whose size always equals the output
length because they grow together). -/
def dedupLoop (count : Nat) : List Int → List Int → List Int
  | _, [] => []
  | seen, c :: rest =>
    if count ≤ seen.length then []
    else if c ∈ seen then dedupLoop count seen rest
    else c :: dedupLoop count (c :: seen) rest

/-- `getNextSlotTimes(schedule, fromUtc, count)` — candidate instants over a
2-week window, filtered to `≥ fromUtc`, sorted ascending, deduplicated,
truncated to `count` (the trailing `.slice(0, count)` of the source). -/
def getNextSlotTimes (s : Schedule) (fromUtc : Int) (count : Nat) : List Int :=
  if s.timeSlots = [] then []
  else
    let tz := s.timezone
    let startP := getLocalParts fromUtc tz
    let cands := listFlat (fun week =>
      listFlat (fun dow =>
        (s.timeSlots.filterMap fun slot =>
          let utc := slotCandidate startP tz week dow slot
          if fromUtc ≤ utc then some utc else none))
        (daysListOf s))
      (List.range 2)
    (dedupLoop count [] (List.insertionSort (· ≤ ·) cands)).take count

/-- `getNextSlotTime(schedule, fromUtc)` — the single next slot instant. -/
def getNextSlotTime (s : Schedule) (fromUtc : Int) : Option Int :=
  (getNextSlotTimes s fromUtc 1).head?

/-! ## Slot allocator (`slotAllocator.service.js`) -/

/-- `QueueSlot` status enum from `queueSlot.model.js`. -/
inductive SlotStatus
  | available | scheduled | publishing | published | failed | canceled
deriving DecidableEq

/-- `Post` status enum from `post.model.js`. -/
inductive PostStatus
  | draft | scheduled | queued | publishing | published | failed
deriving DecidableEq

/-- A `QueueSlot` document (`queueSlot.model.js`), restricted to the fields
the allocator reads and writes. -/
structure QueueSlotDoc where
  organizationId : Nat
  socialAccountId : Nat
  scheduledAt : Int
  postId : Option Nat
  status : SlotStatus
deriving DecidableEq

/-- A per-account content variant entry of a `Post` document. -/
structure VariantDoc where
  socialAccountId : Nat
  text : Option String
  linkUrl : Option String
deriving DecidableEq

/-- A media entry of a `Post` document (`type`, `url`, `key` are the fields
`buildPayload` maps through; `type` is a JS keyword-ish name, hence `mtype`). -/
structure MediaDoc where
  mtype : String
  url : String
  key : String
deriving DecidableEq

/-- A `Post` document (`post.model.js`), restricted to the fields the
allocator and the publish orchestrator touch. -/
structure PostDoc where
  id : Nat
  organizationId : Nat
  status : PostStatus
  contentText : Option String
  contentLinkUrl : Option String
  contentLinkTitle : Option String
  contentVisibility : Option String
  variants : List VariantDoc
  media : List MediaDoc
  socialAccountIds : List Nat
  scheduledAt : Option Int
  publishedAt : Option Int
  failureReason : Option String
  failureCode : Option String
deriving DecidableEq

/-- An `AccountSchedule` document: the lookup key and `enabled` flag of
`accountSchedule.model.js` plus the recurrence-rule fields. -/
structure ScheduleDoc where
  socialAccountId : Nat
  enabled : Bool
  rule : Schedule

/-- The collections the slot allocator queries and writes. -/
structure AllocStore where
  schedules : List ScheduleDoc
  queueSlots : List QueueSlotDoc
  posts : List PostDoc

/-- `AccountSchedule.findOne({ socialAccountId, enabled: true })`. -/
def findSchedule (store : AllocStore) (acct : Nat) : Option ScheduleDoc :=
  store.schedules.find? fun s => s.socialAccountId == acct && s.enabled

/-- The effective daily cap `schedule.maxPostsPerDay || 5` (JS `||` maps the
falsy 0 to the default 5). -/
def maxPerDayEff (s : Schedule) : Nat :=
  if s.maxPostsPerDay = 0 then 5 else s.maxPostsPerDay

/-- The status filter `{ $in: ['scheduled', 'publishing', 'published'] }`
used by both the day-count query and the double-booking query. -/
def activeSlotStatus (st : SlotStatus) : Bool :=
  st == .scheduled || st == .publishing || st == .published

/-- `countScheduledSlotsInRange(socialAccountId, dayStartUtc, dayEndUtc)`:
`max` of the `QueueSlot` count and the `Post` count over `[dayStart, dayEnd)`
(a `Post` with `scheduledAt: null` matches no range query). -/
def countScheduledSlotsInRange (store : AllocStore) (acct : Nat)
    (dayStart dayEnd : Int) : Nat :=
  let slotCount := store.queueSlots.countP fun q =>
    q.socialAccountId == acct && decide (dayStart ≤ q.scheduledAt) &&
    decide (q.scheduledAt < dayEnd) && activeSlotStatus q.status
  let postCount := store.posts.countP fun p =>
    p.socialAccountIds.contains acct &&
    (match p.scheduledAt with
      | some t => decide (dayStart ≤ t) && decide (t < dayEnd)
      | none => false) &&
    (p.status == .scheduled || p.status == .queued || p.status == .publishing)
  max slotCount postCount

/-- `getDayStartInUtc(dateUtc, tz)` — the UTC instant of local midnight of the
local day containing `cand`.  `l0` is that midnight's wall time reparsed as a
UTC instant; the general branch subtracts the sampled offset and the
`tz === 'UTC'` branch is its `ofs = 0` case. -/
def getDayStartInUtc (cand : Int) (tz : Tz) : Int :=
  let l0 := (cand + tz.ofs cand) / msDay * msDay
  l0 - tz.ofs l0

/-- The `QueueSlot.findOne({ socialAccountId, scheduledAt: candidate,
status: { $in: [...] } })` double-booking probe, as a Boolean. -/
def alreadyUsed (store : AllocStore) (acct : Nat) (cand : Int) : Bool :=
  store.queueSlots.any fun q =>
    q.socialAccountId == acct && q.scheduledAt == cand && activeSlotStatus q.status

/-- The candidate-search loop of `getNextAvailableSlot`, fuelled by the
`attempts` counter: fetch the next candidate, reject it if the local day is at
the cap or the exact instant is already booked (advancing `from` one minute
past the candidate, `candidate.getTime() + 60 * 1000`), otherwise return it. -/
def allocLoop (store : AllocStore) (sd : ScheduleDoc) (acct : Nat) :
    Int → Nat → Option Int
  | _, 0 => none
  | fromUtc, fuel + 1 =>
    match getNextSlotTime sd.rule fromUtc with
    | none => none
    | some cand =>
      let dayStart := getDayStartInUtc cand sd.rule.timezone
      let dayEnd := dayStart + msDay
      let existing := countScheduledSlotsInRange store acct dayStart dayEnd
      if maxPerDayEff sd.rule ≤ existing then
        allocLoop store sd acct (cand + msMin) fuel
      else if alreadyUsed store acct cand then
        allocLoop store sd acct (cand + msMin) fuel
      else some cand

/-- The loop bound `14 * 24 * 2` from `getNextAvailableSlot`. -/
def attemptCap : Nat := 14 * 24 * 2

/-- `getNextAvailableSlot(socialAccountId, fromUtc)`: schedule lookup, empty
`timeSlots` short-circuit, then the bounded candidate search. -/
def getNextAvailableSlot (store : AllocStore) (acct : Nat) (fromUtc : Int) :
    Option Int :=
  match findSchedule store acct with
  | none => none
  | some sd =>
    if sd.rule.timeSlots = [] then none
    else allocLoop store sd acct fromUtc attemptCap

/-- `allocLoop` instrumented with the number of candidate attempts performed
(loop iterations that fetched a candidate or observed the evaluator empty). -/
def allocLoopCount (store : AllocStore) (sd : ScheduleDoc) (acct : Nat) :
    Int → Nat → Option Int × Nat
  | _, 0 => (none, 0)
  | fromUtc, fuel + 1 =>
    match getNextSlotTime sd.rule fromUtc with
    | none => (none, 1)
    | some cand =>
      let dayStart := getDayStartInUtc cand sd.rule.timezone
      let dayEnd := dayStart + msDay
      let existing := countScheduledSlotsInRange store acct dayStart dayEnd
      if maxPerDayEff sd.rule ≤ existing then
        let r := allocLoopCount store sd acct (cand + msMin) fuel
        (r.1, r.2 + 1)
      else if alreadyUsed store acct cand then
        let r := allocLoopCount store sd acct (cand + msMin) fuel
        (r.1, r.2 + 1)
      else (some cand, 1)

/-- Errors thrown by `allocateSlotForPost`. -/
inductive AllocErr
  | noAccounts
  | postNotFound
  | invalidPostState
  | noSlotAvailable (acct : Nat)
deriving DecidableEq

/-- `Post.findById`. -/
def findPost (posts : List PostDoc) (id : Nat) : Option PostDoc :=
  posts.find? fun p => p.id == id

/-- `Post.updateOne({_id: id}, {$set: ...})`, as a field update on the
matching document. -/
def updatePost (posts : List PostDoc) (id : Nat) (f : PostDoc → PostDoc) :
    List PostDoc :=
  posts.map fun p => if p.id == id then f p else p

/-- The per-account loop of `allocateSlotForPost`: find a slot, create the
`QueueSlot` (status `scheduled`, bound to the post), advance the shared
`fromUtc` watermark to the latest booked instant. -/
def allocAccountsLoop (postId orgId : Nat) :
    AllocStore → Int → List Nat →
    Except AllocErr (AllocStore × Int × List (Nat × Int))
  | store, fromUtc, [] => .ok (store, fromUtc, [])
  | store, fromUtc, acct :: rest =>
    match getNextAvailableSlot store acct fromUtc with
    | none => .error (.noSlotAvailable acct)
    | some t =>
      let slot : QueueSlotDoc :=
        { organizationId := orgId, socialAccountId := acct, scheduledAt := t
          postId := some postId, status := .scheduled }
      let store' := { store with queueSlots := store.queueSlots ++ [slot] }
      let fromUtc' := if fromUtc < t then t else fromUtc
      match allocAccountsLoop postId orgId store' fromUtc' rest with
      | .error e => .error e
      | .ok (s, f, slots) => .ok (s, f, (acct, t) :: slots)

/-- `allocateSlotForPost(postId, socialAccountIds, organizationId)`: state
checks, the per-account booking loop (threading the store, since each
`QueueSlot.create` is visible to later iterations), then the `Post` update to
the earliest booked instant with status `scheduled`.  The free `now` stands
for `Date.now()`; the search starts at `now + MINUTES_BUFFER` (2 minutes). -/
def allocateSlotForPost (store : AllocStore) (postId : Nat)
    (accountIds : List Nat) (orgId : Nat) (now : Int) :
    Except AllocErr (AllocStore × Int × List (Nat × Int)) :=
  if accountIds = [] then .error .noAccounts
  else
    match findPost store.posts postId with
    | none => .error .postNotFound
    | some post =>
      if !(post.status == .draft || post.status == .queued) then
        .error .invalidPostState
      else
        let fromUtc := now + 2 * msMin
        match allocAccountsLoop postId orgId store fromUtc accountIds with
        | .error e => .error e
        | .ok (store', _, slots) =>
          let earliest :=
            match slots.map (fun sl => sl.2) with
            | [] => now
            | t :: ts => ts.foldl min t
          let store2 :=
            { store' with posts := updatePost store'.posts postId fun p =>
                { p with socialAccountIds := accountIds
                         scheduledAt := some earliest
                         status := .scheduled } }
          .ok (store2, earliest, slots)

/-! ## Publish orchestrator (`publish.service.js`), token broker
(`connection.service.js`) and job processor (`publish.job.js`) -/

/-- A `SocialAccount` document (`connection.model.js`), restricted to the
fields the token broker and publish service touch. -/
structure SocialAccountDoc where
  id : Nat
  organizationId : Nat
  platform : String
  status : String
  accessToken : String
  refreshToken : Option String
  tokenExpiresAt : Option Int
  lastErrorCode : Option String
  lastErrorMessage : Option String
  metadataPageId : Option String
deriving DecidableEq

/-- A `PublishResult` document: one record per `(postId, socialAccountId)`,
upserted by `publish.service.js`. -/
structure PublishResultDoc where
  postId : Nat
  socialAccountId : Nat
  organizationId : Nat
  status : String
  platformPostId : Option String
  platformPostUrl : Option String
  errorCode : Option String
  errorMessage : Option String
  publishedAt : Option Int
deriving DecidableEq

/-- A thrown JS error as the duck-typed record the source discriminates on:
`name` (the class tag used by `instanceof`/`err.name`), optional `code`,
`message`, and `retryAfterSeconds` for rate-limit errors. -/
structure JsError where
  name : String
  code : Option String
  message : String
  retryAfterSeconds : Option Nat
deriving DecidableEq

/-- A plain `new Error(msg)` with `e.code = code` attached. -/
def errWith (code msg : String) : JsError :=
  { name := "Error", code := some code, message := msg, retryAfterSeconds := none }

/-- JS `opt || dflt` on an optional string (both `undefined` and the empty
string are falsy). -/
def jsOr (o : Option String) (d : String) : String :=
  match o with
  | some s => if s = "" then d else s
  | none => d

/-- JS truthiness of an optional string (`undefined`, `null` and `''` are
falsy). -/
def jsStrTruthy (o : Option String) : Bool :=
  match o with
  | some s => decide (s ≠ "")
  | none => false

/-- JS `opt || undefined` on an optional string (`account.metadata?.pageId ||
undefined`). -/
def jsOrUndef (o : Option String) : Option String :=
  match o with
  | some s => if s = "" then none else some s
  | none => none

/-- Boolean contiguous-sublist test on character lists. -/
def hasSub (needle : List Char) : List Char → Bool
  | [] => needle.isEmpty
  | c :: rest => needle.isPrefixOf (c :: rest) || hasSub needle rest

/-- JS `haystack.includes(needle)` on strings. -/
def strIncludes (hay needle : String) : Bool :=
  hasSub needle.toList hay.toList

/-- The payload `buildPayload` assembles for the adapter. -/
structure Payload where
  text : String
  linkUrl : Option String
  linkTitle : Option String
  media : List MediaDoc
  visibility : Option String
deriving DecidableEq

/-- A successful adapter publish response. -/
structure PublishSuccess where
  platformPostId : String
  platformPostUrl : Option String
  publishedAt : Option Int
deriving DecidableEq

/-- A successful adapter token-refresh response. -/
structure RefreshedTokens where
  accessToken : String
  refreshToken : Option String
  expiresAt : Option Int

/-- A platform adapter (provider) as the deterministic oracle of this run:
`refreshToken` (guarded by the source's `typeof provider.refreshToken ===
'function'` check, hence `hasRefreshFn`) and `publishPost`. -/
structure Provider where
  hasRefreshFn : Bool
  refreshTokenFn : String → Except JsError RefreshedTokens
  publishFn : String → Payload → Option String → Except JsError PublishSuccess

/-- Environment of a publish run: the provider registry, the credential
vault's `encrypt`/`decrypt` (decrypt throws on malformed input, hence
`Option`), and the sampled wall clock `Date.now()`. -/
structure PubEnv where
  providers : String → Option Provider
  decrypt : String → Option String
  encrypt : String → String
  now : Int

/-- The collections the publish flow reads and writes. -/
structure PubDB where
  posts : List PostDoc
  accounts : List SocialAccountDoc
  results : List PublishResultDoc
deriving DecidableEq

instance {ε α : Type} [DecidableEq ε] [DecidableEq α] :
    DecidableEq (Except ε α) := fun x y =>
  match x, y with
  | .ok a, .ok b =>
    if h : a = b then .isTrue (by rw [h]) else .isFalse (by simp [h])
  | .error a, .error b =>
    if h : a = b then .isTrue (by rw [h]) else .isFalse (by simp [h])
  | .ok _, .error _ => .isFalse (by simp)
  | .error _, .ok _ => .isFalse (by simp)

/-- Observable network calls of a run: one event per adapter invocation. -/
inductive Ev
  | adapterPublish (acct : Nat)
  | adapterRefresh (acct : Nat)
deriving DecidableEq

/-- `SocialAccount.findById`. -/
def findAccount (accounts : List SocialAccountDoc) (id : Nat) :
    Option SocialAccountDoc :=
  accounts.find? fun a => a.id == id

/-- `SocialAccount.updateOne({_id: id}, {$set: ...})`. -/
def updateAccount (accounts : List SocialAccountDoc) (id : Nat)
    (f : SocialAccountDoc → SocialAccountDoc) : List SocialAccountDoc :=
  accounts.map fun a => if a.id == id then f a else a

/-- The empty `PublishResult` document a keyed upsert starts from when no
document matches (every `$set` in the source assigns `postId`,
`socialAccountId`, `organizationId` and `status`, so the remaining defaults
are the schema's absent optionals). -/
def emptyResult (pid acct : Nat) : PublishResultDoc :=
  { postId := pid, socialAccountId := acct, organizationId := 0, status := ""
    platformPostId := none, platformPostUrl := none, errorCode := none
    errorMessage := none, publishedAt := none }

/-- `PublishResult.findOneAndUpdate({postId, socialAccountId}, {$set: ...},
{upsert: true})`: apply `f` to the matching document, or to a fresh empty
document appended at the end. -/
def upsertResultWith (results : List PublishResultDoc) (pid acct : Nat)
    (f : PublishResultDoc → PublishResultDoc) : List PublishResultDoc :=
  if results.any fun x => x.postId == pid && x.socialAccountId == acct then
    results.map fun x =>
      if x.postId == pid && x.socialAccountId == acct then f x else x
  else results ++ [f (emptyResult pid acct)]

/-- Fetch a `PublishResult` row by its `(postId, socialAccountId)` key. -/
def lookupResult (results : List PublishResultDoc) (pid acct : Nat) :
    Option PublishResultDoc :=
  results.find? fun x => x.postId == pid && x.socialAccountId == acct

/-- The tail of `getValidAccessToken` after the refresh block: if a refresh
was needed but no refresh token is stored, mark the account `expired` and
throw `TOKEN_EXPIRED`; otherwise return the (possibly stale) access token. -/
def tokenTail (db : PubDB) (id : Nat) (needsRefresh : Bool)
    (account : SocialAccountDoc) (accessToken : String) :
    PubDB × List Ev × Except JsError String :=
  if needsRefresh && !jsStrTruthy account.refreshToken then
    let db' := { db with accounts := updateAccount db.accounts id fun a =>
      { a with status := "expired", lastErrorCode := some "NO_REFRESH_TOKEN" } }
    (db', [], .error (errWith "TOKEN_EXPIRED" "Token expired and no refresh token"))
  else (db, [], .ok accessToken)

/-- `getValidAccessToken(socialAccountId)` from `connection.service.js`:
status gate, 5-minute expiry buffer, optional adapter refresh with credential
rotation or `expired` demotion on invalid-grant-equivalent failures, and the
no-refresh-token path.  Returns the updated store, the adapter-call trace and
the decrypted access token or the thrown error. -/
def getValidAccessToken (env : PubEnv) (db : PubDB) (id : Nat) :
    PubDB × List Ev × Except JsError String :=
  match findAccount db.accounts id with
  | none => (db, [], .error (errWith "ACCOUNT_NOT_FOUND" "Social account not found"))
  | some account =>
    if !(account.status == "active" || account.status == "expired") then
      (db, [], .error (errWith "ACCOUNT_NOT_ACTIVE" ("Account status: " ++ account.status)))
    else
      let needsRefresh :=
        match account.tokenExpiresAt with
        | some e => decide (e - 5 * 60 * 1000 ≤ env.now)
        | none => false
      match env.decrypt account.accessToken with
      | none => (db, [], .error (errWith "DECRYPT_FAILED" "Invalid token ciphertext format"))
      | some accessToken0 =>
        if needsRefresh && jsStrTruthy account.refreshToken then
          match env.providers account.platform with
          | none => tokenTail db id needsRefresh account accessToken0
          | some provider =>
            if !provider.hasRefreshFn then
              tokenTail db id needsRefresh account accessToken0
            else
              match env.decrypt (account.refreshToken.getD "") with
              | none =>
                (db, [], .error (errWith "DECRYPT_FAILED" "Invalid token ciphertext format"))
              | some rt =>
                match provider.refreshTokenFn rt with
                | .ok nt =>
                  let encAccess := env.encrypt nt.accessToken
                  let encRefresh :=
                    if jsStrTruthy nt.refreshToken then
                      some (env.encrypt (nt.refreshToken.getD ""))
                    else account.refreshToken
                  let db' := { db with accounts := updateAccount db.accounts id fun a =>
                    { a with accessToken := encAccess, refreshToken := encRefresh
                             tokenExpiresAt := nt.expiresAt, status := "active"
                             lastErrorCode := none, lastErrorMessage := none } }
                  (db', [.adapterRefresh id], .ok nt.accessToken)
                | .error err =>
                  let isInvalidGrant :=
                    err.name == "OAuthError" &&
                      (strIncludes err.message "invalid_grant" ||
                       strIncludes err.message "expired" ||
                       err.code == some "refresh_failed")
                  if isInvalidGrant then
                    let db' := { db with accounts := updateAccount db.accounts id fun a =>
                      { a with status := "expired"
                               lastErrorCode := some (jsOr err.code "refresh_failed")
                               lastErrorMessage := some (err.message.take 500) } }
                    (db', [.adapterRefresh id], .error err)
                  else (db, [.adapterRefresh id], .error err)
        else tokenTail db id needsRefresh account accessToken0

/-- `buildPayload(post, socialAccountId)`: base content with the account's
variant override applied (JS truthiness on the override fields). -/
def buildPayload (post : PostDoc) (acctId : Option Nat) : Payload :=
  let text0 := jsOr post.contentText ""
  let linkUrl0 := post.contentLinkUrl
  let variant : Option VariantDoc :=
    match acctId with
    | some a => post.variants.find? fun v => v.socialAccountId == a
    | none => none
  let text :=
    match variant with
    | some v => if jsStrTruthy v.text then v.text.getD "" else text0
    | none => text0
  let linkUrl :=
    match variant with
    | some v => if jsStrTruthy v.linkUrl then v.linkUrl else linkUrl0
    | none => linkUrl0
  { text := text, linkUrl := linkUrl, linkTitle := post.contentLinkTitle
    media := post.media, visibility := post.contentVisibility }

/-- `publishPostToAccount(postId, socialAccountId)`: state and account gates,
token acquisition (recording a failed `PublishResult` on `OAuthError` /
`TOKEN_EXPIRED` token failures), adapter publish, and outcome recording —
success upserts a `published` row; rate-limit and OAuth publish errors are
rethrown without a row; other publish errors upsert a `failed` row and are
rethrown. -/
def publishPostToAccount (env : PubEnv) (db : PubDB) (postId acctId : Nat) :
    PubDB × List Ev × Except JsError PublishSuccess :=
  match findPost db.posts postId with
  | none => (db, [], .error (errWith "POST_NOT_FOUND" "Post not found"))
  | some post =>
    if !(post.status == .scheduled || post.status == .queued ||
         post.status == .publishing) then
      (db, [], .error (errWith "INVALID_POST_STATE" "Post not in publishable status"))
    else
      match findAccount db.accounts acctId with
      | none => (db, [], .error (errWith "ACCOUNT_NOT_FOUND" "Social account not found"))
      | some account =>
        if !(account.status == "active" || account.status == "expired") then
          (db, [], .error (errWith "ACCOUNT_NOT_ACTIVE" ("Account not publishable: " ++ account.status)))
        else
          match env.providers account.platform with
          | none => (db, [], .error (errWith "UNKNOWN_PROVIDER" ("No provider for platform: " ++ account.platform)))
          | some provider =>
            let tok := getValidAccessToken env db acctId
            match tok.2.2 with
            | .error err =>
              if err.name == "OAuthError" || err.code == some "TOKEN_EXPIRED" then
                let db2 := { tok.1 with results := upsertResultWith tok.1.results postId acctId fun x =>
                  { x with postId := postId, socialAccountId := acctId
                           organizationId := post.organizationId, status := "failed"
                           errorCode := some (jsOr err.code "TOKEN_EXPIRED")
                           errorMessage := some (err.message.take 1000) } }
                (db2, tok.2.1, .error err)
              else (tok.1, tok.2.1, .error err)
            | .ok accessToken =>
              let payload := buildPayload post (some acctId)
              match provider.publishFn accessToken payload (jsOrUndef account.metadataPageId) with
              | .ok result =>
                let db2 := { tok.1 with results := upsertResultWith tok.1.results postId acctId fun x =>
                  { x with postId := postId, socialAccountId := acctId
                           organizationId := post.organizationId, status := "published"
                           platformPostId := some result.platformPostId
                           platformPostUrl := result.platformPostUrl
                           publishedAt := result.publishedAt } }
                (db2, tok.2.1 ++ [.adapterPublish acctId], .ok result)
              | .error err =>
                if err.name == "ProviderRateLimitError" then
                  (tok.1, tok.2.1 ++ [.adapterPublish acctId], .error err)
                else if err.name == "OAuthError" then
                  (tok.1, tok.2.1 ++ [.adapterPublish acctId], .error err)
                else
                  let db2 := { tok.1 with results := upsertResultWith tok.1.results postId acctId fun x =>
                    { x with postId := postId, socialAccountId := acctId
                             organizationId := post.organizationId, status := "failed"
                             errorCode := some (jsOr err.code err.name)
                             errorMessage := some (err.message.take 1000) } }
                  (db2, tok.2.1 ++ [.adapterPublish acctId], .error err)

/-- The per-account loop of `publishPost`, carrying the JS loop state
(`anySuccess`, `lastError`).  Returns the store, the adapter-call trace, the
in-memory `results` array entries pushed by the loop, the final `anySuccess`
and `lastError`, and — when a `ProviderRateLimitError` broke the loop — the
rate-limited account, its error and the accounts never attempted. -/
def publishLoop (env : PubEnv) (postId : Nat) :
    PubDB → Bool → Option JsError → List Nat →
    PubDB × List Ev × List (Nat × Except JsError PublishSuccess) × Bool ×
      Option JsError × Option (Nat × JsError × List Nat)
  | db, anyS, lastE, [] => (db, [], [], anyS, lastE, none)
  | db, anyS, lastE, acct :: rest =>
    let step := publishPostToAccount env db postId acct
    match step.2.2 with
    | .ok res =>
      let r := publishLoop env postId step.1 true lastE rest
      (r.1, step.2.1 ++ r.2.1, (acct, .ok res) :: r.2.2.1, r.2.2.2)
    | .error err =>
      if err.name == "ProviderRateLimitError" then
        (step.1, step.2.1, [], anyS, lastE, some (acct, err, rest))
      else
        let r := publishLoop env postId step.1 anyS (some err) rest
        (r.1, step.2.1 ++ r.2.1, (acct, .error err) :: r.2.2.1, r.2.2.2)

/-- The observable result of one `publishPost` invocation, instrumented with
the loop's internal state for the theorems below. -/
structure PubRun where
  db : PubDB
  evs : List Ev
  attempts : List (Nat × Except JsError PublishSuccess)
  anySuccess : Bool
  lastError : Option JsError
  rlInfo : Option (Nat × JsError × List Nat)
  outcome : Except JsError Unit
deriving DecidableEq

/-- `publishPost(postId)`: load the post, fail it with `NO_ACCOUNTS` when it
targets no account, set it `publishing`, run the per-account loop; on a
rate-limit break restore status `scheduled` and rethrow, otherwise set the
final `published`/`failed` status with `lastError`'s code/message (a JS
`$set` of `undefined` leaves the stored field unchanged). -/
def publishPostRun (env : PubEnv) (db : PubDB) (postId : Nat) : PubRun :=
  match findPost db.posts postId with
  | none =>
    { db := db, evs := [], attempts := [], anySuccess := false, lastError := none
      rlInfo := none, outcome := .error (errWith "POST_NOT_FOUND" "Post not found") }
  | some post =>
    if post.socialAccountIds = [] then
      let db' := { db with posts := updatePost db.posts postId fun p =>
        { p with status := .failed, failureCode := some "NO_ACCOUNTS"
                 failureReason := some "No social accounts" } }
      { db := db', evs := [], attempts := [], anySuccess := false
        lastError := none, rlInfo := none, outcome := .ok () }
    else
      let db1 := { db with posts := updatePost db.posts postId fun p =>
        { p with status := .publishing } }
      let r := publishLoop env postId db1 false none post.socialAccountIds
      match r.2.2.2.2.2 with
      | some rl =>
        let db3 := { r.1 with posts := updatePost r.1.posts postId fun p =>
          { p with status := .scheduled } }
        { db := db3, evs := r.2.1, attempts := r.2.2.1, anySuccess := r.2.2.2.1
          lastError := r.2.2.2.2.1, rlInfo := some rl, outcome := .error rl.2.1 }
      | none =>
        let anyS := r.2.2.2.1
        let lastE := r.2.2.2.2.1
        let db3 := { r.1 with posts := updatePost r.1.posts postId fun p =>
          { p with status := if anyS then .published else .failed
                   publishedAt := if anyS then some env.now else p.publishedAt
                   failureReason := if anyS then p.failureReason else
                     some (jsOr (lastE.map fun e => e.message) "Publish failed")
                   failureCode := if anyS then p.failureCode else
                     some (jsOr (lastE.bind fun e => e.code) "PUBLISH_FAILED") } }
        { db := db3, evs := r.2.1, attempts := r.2.2.1, anySuccess := anyS
          lastError := lastE, rlInfo := none, outcome := .ok () }

/-- `publishPost` as exposed: the store, the trace and the thrown/ok result. -/
def publishPost (env : PubEnv) (db : PubDB) (postId : Nat) :
    PubDB × List Ev × Except JsError Unit :=
  let r := publishPostRun env db postId
  (r.db, r.evs, r.outcome)

/-- Outcome of one job invocation in `publish.job.js`: completion, a
`moveToDelayed`+`DelayedError` deferral (not counted as a failure by the job
runner), or a rethrown error that counts against the job's attempts. -/
inductive JobOutcome
  | completed
  | delayed (timestamp : Int)
  | failedJob (err : JsError)
deriving DecidableEq

/-- The job's deferral delay `err.retryAfterSeconds || 60` in seconds (JS
`||` maps the falsy 0 and `undefined` to the 60-second default). -/
def jsDelaySec (o : Option Nat) : Nat :=
  match o with
  | some n => if n = 0 then 60 else n
  | none => 60

/-- `processPublishJob(job)`: run `publishPost`; on `ProviderRateLimitError`
reschedule at `Date.now() + (retryAfterSeconds || 60) * 1000`; swallow
`OAuthError`/`TOKEN_EXPIRED` (no retry); rethrow everything else. -/
def processPublishJob (env : PubEnv) (db : PubDB) (postId : Option Nat) :
    PubDB × List Ev × JobOutcome :=
  match postId with
  | none =>
    (db, [], .failedJob { name := "Error", code := none
                          message := "Job data missing postId", retryAfterSeconds := none })
  | some pid =>
    let r := publishPostRun env db pid
    match r.outcome with
    | .ok _ => (r.db, r.evs, .completed)
    | .error err =>
      if err.name == "ProviderRateLimitError" then
        (r.db, r.evs, .delayed (env.now + (jsDelaySec err.retryAfterSeconds : Int) * 1000))
      else if err.name == "OAuthError" || err.code == some "TOKEN_EXPIRED" then
        (r.db, r.evs, .completed)
      else (r.db, r.evs, .failedJob err)

/-! ## Credential vault (`token.service.js`)

Byte strings are `List Nat` with each entry `< 256`: plaintexts are the UTF-8
bytes of the JS string, outputs are character codes of the returned string.
The AES-256-GCM primitive (`crypto.createCipheriv`) is modelled by its CTR
structure: a keystream determined by the (fixed) key and the IV, XOR-combined
with the plaintext, plus a 16-byte authentication tag determined by the IV
and the ciphertext.  The surrounding framing — the random 12-byte IV, the
`v1:` + base64(`iv | authTag | ciphertext`) format, the format checks and the
slicing in `decrypt` — is translated from the source. -/

/-- The base64 alphabet: 6-bit value to character code
(`A–Z a–z 0–9 + /`). -/
def b64Char (v : Nat) : Nat :=
  if v < 26 then 65 + v
  else if v < 52 then 97 + (v - 26)
  else if v < 62 then 48 + (v - 52)
  else if v = 62 then 43
  else 47

/-- Inverse of `b64Char` on character codes. -/
def b64Val (c : Nat) : Nat :=
  if 65 ≤ c ∧ c ≤ 90 then c - 65
  else if 97 ≤ c ∧ c ≤ 122 then 26 + (c - 97)
  else if 48 ≤ c ∧ c ≤ 57 then 52 + (c - 48)
  else if c = 43 then 62
  else 63

/-- `Buffer.toString('base64')`: standard base64 with `=` (code 61) padding. -/
def b64Encode : List Nat → List Nat
  | [] => []
  | [a] => [b64Char (a / 4), b64Char (a % 4 * 16), 61, 61]
  | [a, b] => [b64Char (a / 4), b64Char (a % 4 * 16 + b / 16),
               b64Char (b % 16 * 4), 61]
  | a :: b :: c :: rest =>
    b64Char (a / 4) :: b64Char (a % 4 * 16 + b / 16) ::
    b64Char (b % 16 * 4 + c / 64) :: b64Char (c % 64) :: b64Encode rest

/-- `Buffer.from(s, 'base64')` on well-formed base64 text. -/
def b64Decode : List Nat → List Nat
  | c1 :: c2 :: c3 :: c4 :: rest =>
    if c3 = 61 then [b64Val c1 * 4 + b64Val c2 / 16]
    else if c4 = 61 then
      [b64Val c1 * 4 + b64Val c2 / 16, b64Val c2 % 16 * 16 + b64Val c3 / 4]
    else
      (b64Val c1 * 4 + b64Val c2 / 16) ::
      (b64Val c2 % 16 * 16 + b64Val c3 / 4) ::
      (b64Val c3 % 4 * 64 + b64Val c4) :: b64Decode rest
  | _ => []

/-- The AES-256-GCM primitive for one fixed key, in its CTR-mode structure:
`ks iv i` is the `i`-th keystream byte under initialization vector `iv`, and
`tagFn iv ct` the 16-byte authentication tag of ciphertext `ct`.  The bounds
are the byte-ness facts of the `crypto` library's output. -/
structure GcmModel where
  ks : List Nat → Nat → Nat
  tagFn : List Nat → List Nat → List Nat
  ks_lt : ∀ iv i, ks iv i < 256
  tag_len : ∀ iv ct, (tagFn iv ct).length = 16
  tag_lt : ∀ iv ct, ∀ b ∈ tagFn iv ct, b < 256

/-- CTR keystream XOR starting at stream position `i` (both `cipher.update`
and `decipher.update` are this map). -/
def ctrXor (g : GcmModel) (iv : List Nat) : Nat → List Nat → List Nat
  | _, [] => []
  | i, b :: rest => (b ^^^ g.ks iv i) :: ctrXor g iv (i + 1) rest

/-- The character codes of the `v1:` version marker. -/
def v1Colon : List Nat := [118, 49, 58]

/-- `TokenService.encrypt(plaintext)` for a given random IV: empty and null
plaintexts pass through as `''`; otherwise
`v1:` ++ base64(`iv | authTag | ciphertext`). -/
def tokEncrypt (g : GcmModel) (iv : List Nat) (plaintext : List Nat) :
    List Nat :=
  if plaintext = [] then []
  else
    let ct := ctrXor g iv 0 plaintext
    v1Colon ++ b64Encode (iv ++ g.tagFn iv ct ++ ct)

/-- `TokenService.encrypt` at the JS boundary: `plaintext == null` (null or
undefined) also returns `''`. -/
def tokEncryptOpt (g : GcmModel) (iv : List Nat)
    (plaintext : Option (List Nat)) : List Nat :=
  match plaintext with
  | none => []
  | some p => tokEncrypt g iv p

/-- `String.split(':')` on character codes (code 58). -/
def splitColon : List Nat → List (List Nat)
  | [] => [[]]
  | c :: rest =>
    if c = 58 then [] :: splitColon rest
    else
      match splitColon rest with
      | p :: ps => (c :: p) :: ps
      | [] => [[c]]

/-- JS truthiness of `parts[1]` (`undefined` and the empty string are
falsy). -/
def jsTruthyPart (o : Option (List Nat)) : Bool :=
  match o with
  | some l => decide (l ≠ [])
  | none => false

/-- `TokenService.decrypt(ciphertext)`: `''` passes through; otherwise check
the `v1` version and a non-empty payload part, base64-decode, check the
28-byte minimum, split off IV (12) and tag (16), verify the tag
(`decipher.final` throws on mismatch) and undo the keystream XOR. -/
def tokDecrypt (g : GcmModel) (s : List Nat) : Except String (List Nat) :=
  if s = [] then .ok []
  else
    let parts := splitColon s
    if !(parts.head? == some [118, 49] && jsTruthyPart parts[1]?) then
      .error "Invalid token ciphertext format"
    else
      let combined := b64Decode (parts[1]?.getD [])
      if combined.length < 12 + 16 then .error "Token ciphertext too short"
      else
        let iv := combined.take 12
        let authTag := (combined.drop 12).take 16
        let encrypted := combined.drop 28
        if authTag ≠ g.tagFn iv encrypted then
          .error "Unsupported state or unable to authenticate data"
        else .ok (ctrXor g iv 0 encrypted)

/-! ## Concrete fixtures used by counterexamples and witnesses -/

/-- The UTC timezone: constant offset 0. -/
def utcTz : Tz := ⟨fun _ => 0⟩

/-- A timezone with one DST-style transition: offset 0 before the instant
7200000 (02:00), +1 h from then on — the shape of a spring-forward zone, with
the transition placed near the epoch to keep numbers small. -/
def dstTz : Tz := ⟨fun t => if t < 7200000 then 0 else 3600000⟩

/-- A rule whose 02:30 local slot falls into `dstTz`'s spring-forward gap on
the first scheduled day (epoch day 0 is a Thursday, weekday 4). -/
def dstSchedule : Schedule :=
  { timeSlots := [⟨2, 30⟩], daysOfWeek := [4], timezone := dstTz
    maxPostsPerDay := 5 }

/-- A draft post with no bookings, used as allocation target. -/
def draftPost (id : Nat) : PostDoc :=
  { id := id, organizationId := 1, status := .draft, contentText := some "hello"
    contentLinkUrl := none, contentLinkTitle := none, contentVisibility := none
    variants := [], media := [], socialAccountIds := [], scheduledAt := none
    publishedAt := none, failureReason := none, failureCode := none }

/-- Account 1's schedule: Thursdays 09:00 UTC, cap 5. -/
def schedThu9 : ScheduleDoc :=
  { socialAccountId := 1, enabled := true
    rule := { timeSlots := [⟨9, 0⟩], daysOfWeek := [4], timezone := utcTz
              maxPostsPerDay := 5 } }

/-- Store with a `failed` queue slot already sitting at account 1's next
candidate instant 09:00 (epoch 32400000). -/
def storeFailedSlot : AllocStore :=
  { schedules := [schedThu9]
    queueSlots := [{ organizationId := 1, socialAccountId := 1
                     scheduledAt := 32400000, postId := none, status := .failed }]
    posts := [draftPost 7] }

/-- Account 2's schedule: Thursdays 09:00 UTC, `maxPostsPerDay` 1. -/
def schedThu9Cap1 : ScheduleDoc :=
  { socialAccountId := 2, enabled := true
    rule := { timeSlots := [⟨9, 0⟩], daysOfWeek := [4], timezone := utcTz
              maxPostsPerDay := 1 } }

/-- Store where account 2 already has a `failed` slot earlier the same UTC
day (08:20), with the daily cap set to 1. -/
def storeCapFailed : AllocStore :=
  { schedules := [schedThu9Cap1]
    queueSlots := [{ organizationId := 1, socialAccountId := 2
                     scheduledAt := 30000000, postId := none, status := .failed }]
    posts := [draftPost 8] }

/-- Modelled from the spec: §4.2 step 4 and the design document's
`skipNextSlot` describe a `skipNext` flag on the recurrence rule that the
allocator consumes and clears.  `accountSchedule.model.js` defines no such
field and `slotAllocator.service.js` never reads or writes any schedule
field, so the flag is carried alongside the source-accurate store; the
allocator below runs exactly the source algorithm on the base collections,
and the flags pass through untouched because no code path mentions them. -/
structure AllocStoreX where
  base : AllocStore
  skipFlags : List (Nat × Bool)

/-- The source allocator run against a store carrying the spec's per-account
`skipNext` flags: the computation is `getNextAvailableSlot` on the base
collections (the only data the source reads), and the returned store is
unchanged (the source performs no `AccountSchedule` update). -/
def getNextAvailableSlotX (store : AllocStoreX) (acct : Nat) (fromUtc : Int) :
    Option Int × AllocStoreX :=
  (getNextAvailableSlot store.base acct fromUtc, store)

/-- The spec's `skipNext` flag for an account in the extended store. -/
def lookupSkip (store : AllocStoreX) (acct : Nat) : Option Bool :=
  (store.skipFlags.find? fun kv => kv.1 == acct).map fun kv => kv.2

/-- Account 3's schedule: Thursdays 09:00 and 12:00 UTC — two free
candidates. -/
def schedTwoSlots : ScheduleDoc :=
  { socialAccountId := 3, enabled := true
    rule := { timeSlots := [⟨9, 0⟩, ⟨12, 0⟩], daysOfWeek := [4]
              timezone := utcTz, maxPostsPerDay := 5 } }

/-- Extended store for account 3 with the spec's `skipNext` flag set. -/
def storeSkipSet : AllocStoreX :=
  { base := { schedules := [schedTwoSlots], queueSlots := [], posts := [draftPost 9] }
    skipFlags := [(3, true)] }

/-- A (mathematically legal) offset function under which every candidate's
local day is the same: `ofs t = 6000000 - t`, so `t + ofs t` is constantly
6000000 and `getDayStartInUtc` is constantly `-6000000`. -/
def weirdTz : Tz := ⟨fun t => 6000000 - t⟩

/-- Account 4's schedule in `weirdTz`, cap 1. -/
def schedWeird : ScheduleDoc :=
  { socialAccountId := 4, enabled := true
    rule := { timeSlots := [⟨9, 0⟩], daysOfWeek := [4], timezone := weirdTz
              maxPostsPerDay := 1 } }

/-- A queued post occupying account 4's (single, shared) local day. -/
def anchorPost : PostDoc :=
  { draftPost 10 with status := .queued, socialAccountIds := [4]
                      scheduledAt := some 0 }

/-- Store in which every candidate day of account 4 is at the cap. -/
def storeWeird : AllocStore :=
  { schedules := [schedWeird], queueSlots := [], posts := [anchorPost] }

/-- A provider whose publish always succeeds. -/
def okProvider : Provider :=
  { hasRefreshFn := false
    refreshTokenFn := fun _ => .error (errWith "UNUSED" "unused")
    publishFn := fun _ _ _ => .ok { platformPostId := "pid-1", platformPostUrl := none
                                    publishedAt := none } }

/-- The `ProviderRateLimitError` instance thrown by `rlProvider`: the class
always sets `code` to `RATE_LIMIT`; here with `retryAfterSeconds` 30. -/
def rateLimitErr : JsError :=
  { name := "ProviderRateLimitError", code := some "RATE_LIMIT"
    message := "429", retryAfterSeconds := some 30 }

/-- A provider whose publish is always rate-limited with `retryAfterSeconds
30`. -/
def rlProvider : Provider :=
  { hasRefreshFn := false
    refreshTokenFn := fun _ => .error (errWith "UNUSED" "unused")
    publishFn := fun _ _ _ => .error rateLimitErr }

/-- A provider whose publish fails with a client error of the given code. -/
def clientErrProvider (c : String) : Provider :=
  { hasRefreshFn := false
    refreshTokenFn := fun _ => .error (errWith "UNUSED" "unused")
    publishFn := fun _ _ _ => .error { name := "ProviderClientError"
                                       code := some c, message := "4xx " ++ c
                                       retryAfterSeconds := none } }

/-- An active account with an unexpired token on the given platform. -/
def activeAccount (id : Nat) (platform : String) : SocialAccountDoc :=
  { id := id, organizationId := 1, platform := platform, status := "active"
    accessToken := "tok", refreshToken := none, tokenExpiresAt := none
    lastErrorCode := none, lastErrorMessage := none, metadataPageId := none }

/-- A scheduled post targeting the given accounts. -/
def scheduledPost (id : Nat) (accts : List Nat) : PostDoc :=
  { draftPost id with status := .scheduled, socialAccountIds := accts }

/-- Environment: platform `"a"` publishes fine, platform `"b"` is
rate-limited, platforms `"e1"`/`"e2"` fail with client errors `E1`/`E2`;
the vault is the identity; the clock reads 1000. -/
def envMix : PubEnv :=
  { providers := fun p =>
      if p = "a" then some okProvider
      else if p = "b" then some rlProvider
      else if p = "e1" then some (clientErrProvider "E1")
      else if p = "e2" then some (clientErrProvider "E2")
      else none
    decrypt := fun s => some s, encrypt := fun s => s, now := 1000 }

/-- Store for the idempotence counterexample: post 21 targets account 11,
which already carries a `published` outcome from a prior pass. -/
def dbPrior : PubDB :=
  { posts := [scheduledPost 21 [11]], accounts := [activeAccount 11 "a"]
    results := [{ postId := 21, socialAccountId := 11, organizationId := 1
                  status := "published", platformPostId := some "prev"
                  platformPostUrl := none, errorCode := none
                  errorMessage := none, publishedAt := some 5 }] }

/-- Store for the rate-limit witness: post 22 targets accounts 11 (succeeds)
then 12 (rate-limited), no prior outcomes. -/
def dbRateLimit : PubDB :=
  { posts := [scheduledPost 22 [11, 12]]
    accounts := [activeAccount 11 "a", activeAccount 12 "b"]
    results := [] }

/-- Store for the failure-order counterexample: post 23 targets accounts 13
(client error `E1`) then 14 (client error `E2`). -/
def dbTwoFailures : PubDB :=
  { posts := [scheduledPost 23 [13, 14]]
    accounts := [activeAccount 13 "e1", activeAccount 14 "e2"]
    results := [] }

/-- An `active` account whose token expired long ago and which has no
refresh token. -/
def expiredNoRefreshAccount : SocialAccountDoc :=
  { activeAccount 15 "a" with tokenExpiresAt := some 0 }

/-- Store for the token-broker witness: only the stale account. -/
def dbExpired : PubDB :=
  { posts := [], accounts := [expiredNoRefreshAccount], results := [] }

/-- The declarative "last failure in attempt order" of a run's attempts
list (the amended form of the recorded failure code/message). -/
def lastFailure (atts : List (Nat × Except JsError PublishSuccess)) :
    Option JsError :=
  (atts.filterMap fun x =>
    match x.2 with
    | .error e => some e
    | .ok _ => none).getLast?

/-- Whether an attempt entry is a success (the `success: true` flag the
source pushes). -/
def attemptOk (x : Nat × Except JsError PublishSuccess) : Bool :=
  match x.2 with
  | .ok _ => true
  | .error _ => false

/-- A trivial instance of the GCM primitive model (zero keystream, constant
tag), used to instantiate witnesses. -/
def gcmZero : GcmModel :=
  { ks := fun _ _ => 0
    tagFn := fun _ _ => List.replicate 16 0
    ks_lt := fun _ _ => by norm_num
    tag_len := fun _ _ => by simp
    tag_lt := fun _ _ b hb => by
      rw [List.eq_of_mem_replicate hb]; norm_num }

/-! # Theorems -/

/-! ## Recurrence Rule Evaluator -/

theorem mem_listFlat {α β : Type} (f : α → List β) (l : List α) (x : β) :
    x ∈ listFlat f l ↔ ∃ a ∈ l, x ∈ f a := by
  induction l with
  | nil => simp [listFlat]
  | cons a l ih => simp [listFlat, ih]

theorem dedupLoop_sub (count : Nat) (seen l : List Int) (x : Int)
    (hx : x ∈ dedupLoop count seen l) : x ∈ l ∧ x ∉ seen := by
  induction l generalizing seen with
  | nil => simp [dedupLoop] at hx
  | cons c rest ih =>
    simp only [dedupLoop] at hx
    split at hx
    · simp at hx
    · split at hx
      · have h := ih _ hx
        exact ⟨List.mem_cons_of_mem _ h.1, h.2⟩
      · rcases List.mem_cons.mp hx with h | h
        · subst h
          exact ⟨List.mem_cons_self _ _, by assumption⟩
        · have h2 := ih _ h
          refine ⟨List.mem_cons_of_mem _ h2.1, fun hs => h2.2 ?_⟩
          exact List.mem_cons_of_mem _ hs

theorem dedupLoop_pairwise (count : Nat) (seen l : List Int)
    (hs : List.Sorted (· ≤ ·) l) :
    (dedupLoop count seen l).Pairwise (· < ·) := by
  induction l generalizing seen with
  | nil => simp [dedupLoop]
  | cons c rest ih =>
    have hcons := List.sorted_cons.mp hs
    simp only [dedupLoop]
    split
    · exact List.Pairwise.nil
    · split
      · exact ih _ hcons.2
      · refine List.Pairwise.cons ?_ (ih _ hcons.2)
        intro y hy
        have hmem := dedupLoop_sub _ _ _ _ hy
        have hle : c ≤ y := hcons.1 y hmem.1
        have hne : y ≠ c := by
          intro h
          exact hmem.2 (h ▸ List.mem_cons_self _ _)
        omega

theorem getNextSlotTimes_mem_decomp (s : Schedule) (fromUtc : Int)
    (count : Nat) (x : Int) (hx : x ∈ getNextSlotTimes s fromUtc count) :
    fromUtc ≤ x ∧ ∃ dow ∈ daysListOf s, ∃ slot ∈ s.timeSlots, ∃ week : Nat,
      x = slotCandidate (getLocalParts fromUtc s.timezone) s.timezone week dow slot := by
  unfold getNextSlotTimes at hx
  split at hx
  · simp at hx
  · have h1 := List.take_subset _ _ hx
    have h2 := (dedupLoop_sub _ _ _ _ h1).1
    have h3 := (List.mem_insertionSort _).mp h2
    rw [mem_listFlat] at h3
    obtain ⟨week, _, h4⟩ := h3
    rw [mem_listFlat] at h4
    obtain ⟨dow, hdow, h5⟩ := h4
    rw [List.mem_filterMap] at h5
    obtain ⟨slot, hslot, h6⟩ := h5
    dsimp only at h6
    split at h6
    · simp only [Option.some.injEq] at h6
      subst h6
      exact ⟨by assumption, dow, hdow, slot, hslot, week, rfl⟩
    · cases h6

theorem getNextSlotTimes_sorted (s : Schedule) (fromUtc : Int) (count : Nat) :
    (getNextSlotTimes s fromUtc count).Pairwise (· < ·) := by
  unfold getNextSlotTimes
  split
  · exact List.Pairwise.nil
  · exact (dedupLoop_pairwise _ _ _ (List.sorted_insertionSort _ _)).sublist
      (List.take_sublist _ _)

theorem getNextSlotTimes_length (s : Schedule) (fromUtc : Int) (count : Nat) :
    (getNextSlotTimes s fromUtc count).length ≤ count := by
  unfold getNextSlotTimes
  split
  · simp
  · exact List.length_take_le _ _

theorem localParts_localToUtc_const (cofs : Int) (tz : Tz)
    (hofs : ∀ t, tz.ofs t = cofs) (dayNum h m : Int)
    (hh : 0 ≤ h ∧ h < 24) (hm : 0 ≤ m ∧ m < 60) :
    getLocalParts (localToUtc dayNum h m tz) tz =
      { day := dayNum, dayOfWeek := (dayNum + 4) % 7, hour := h, minute := m } := by
  unfold getLocalParts localToUtc
  simp only [hofs, msDay, msHour, msMin, LocalParts.mk.injEq]
  refine ⟨?_, ?_, ?_, ?_⟩ <;> omega

theorem mem_daysListOf (s : Schedule) (hdays : s.daysOfWeek ≠ []) (d : Nat)
    (hd : d ∈ daysListOf s) : d ∈ s.daysOfWeek := by
  unfold daysListOf at hd
  rw [if_neg hdays] at hd
  exact List.mem_dedup.mp ((List.mem_insertionSort _).mp hd)

theorem slotCandidate_wallclock_const (cofs : Int) (tz : Tz)
    (hofs : ∀ t, tz.ofs t = cofs) (startP : LocalParts)
    (hsp : startP.dayOfWeek = (startP.day + 4) % 7) (week dow : Nat)
    (hdow : dow < 7) (slot : TimeSlot) (hh : slot.hour < 24)
    (hm : slot.minute < 60) :
    (getLocalParts (slotCandidate startP tz week dow slot) tz).hour = slot.hour ∧
    (getLocalParts (slotCandidate startP tz week dow slot) tz).minute = slot.minute ∧
    (getLocalParts (slotCandidate startP tz week dow slot) tz).dayOfWeek = dow := by
  have hhb : (0 : Int) ≤ (slot.hour : Int) ∧ (slot.hour : Int) < 24 := by
    constructor <;> omega
  have hmb : (0 : Int) ≤ (slot.minute : Int) ∧ (slot.minute : Int) < 60 := by
    constructor <;> omega
  unfold slotCandidate
  dsimp only
  rw [localParts_localToUtc_const cofs tz hofs _ _ _ hhb hmb]
  refine ⟨rfl, rfl, ?_⟩
  dsimp only
  split <;> split <;> omega

/-- C5 (amended) — For every schema-valid recurrence rule with at least one
local time and at least one active weekday, `getNextSlotTimes` returns
instants all `≥ fromUtc`, strictly increasing (hence duplicate-free), at most
`count` many; and whenever the rule's timezone has a constant UTC offset (no
DST transition), every returned instant's local wall-clock time equals one of
the configured `(hour, minute)` pairs on one of the active weekdays.  (The
original claim asserts the wall-clock property for arbitrary timezones; it
fails across a DST step, see the counterexample.) -/
theorem recurrence_nextInstants_ordered (s : Schedule) (fromUtc : Int)
    (count : Nat) (hvalid : s.Valid) (_hts : s.timeSlots ≠ [])
    (hdays : s.daysOfWeek ≠ []) :
    (∀ x ∈ getNextSlotTimes s fromUtc count, fromUtc ≤ x) ∧
    (getNextSlotTimes s fromUtc count).Pairwise (· < ·) ∧
    (getNextSlotTimes s fromUtc count).length ≤ count ∧
    (∀ cofs : Int, (∀ t, s.timezone.ofs t = cofs) →
      ∀ x ∈ getNextSlotTimes s fromUtc count,
        ∃ slot ∈ s.timeSlots, ∃ d ∈ s.daysOfWeek,
          (getLocalParts x s.timezone).hour = slot.hour ∧
          (getLocalParts x s.timezone).minute = slot.minute ∧
          (getLocalParts x s.timezone).dayOfWeek = d) := by
  refine ⟨fun x hx => (getNextSlotTimes_mem_decomp s fromUtc count x hx).1,
    getNextSlotTimes_sorted s fromUtc count,
    getNextSlotTimes_length s fromUtc count, ?_⟩
  intro cofs hofs x hx
  obtain ⟨-, dow, hdow, slot, hslot, week, hxeq⟩ :=
    getNextSlotTimes_mem_decomp s fromUtc count x hx
  have hdowmem := mem_daysListOf s hdays dow hdow
  have hdow7 : dow < 7 := hvalid.2.1 dow hdowmem
  have hslotb := hvalid.1 slot hslot
  refine ⟨slot, hslot, dow, hdowmem, ?_⟩
  subst hxeq
  have hsp : (getLocalParts fromUtc s.timezone).dayOfWeek =
      ((getLocalParts fromUtc s.timezone).day + 4) % 7 := rfl
  exact slotCandidate_wallclock_const cofs s.timezone hofs _ hsp week dow hdow7
    slot hslotb.1 hslotb.2

/-- C5 (counterexample) — With a rule in a timezone that has a DST-style
transition, the single instant `getNextSlotTimes` returns has a local
wall-clock time (01:30) matching none of the configured pairs (02:30), even
though the rule is schema-valid with a non-empty slot list and weekday set.
This refutes the original claim's wall-clock conjunct. -/
theorem recurrence_dst_wallclock_cex :
    dstSchedule.Valid ∧ dstSchedule.timeSlots ≠ [] ∧
    dstSchedule.daysOfWeek ≠ [] ∧
    getNextSlotTimes dstSchedule 0 1 = [5400000] ∧
    ∀ slot ∈ dstSchedule.timeSlots,
      ¬((getLocalParts 5400000 dstSchedule.timezone).hour = slot.hour ∧
        (getLocalParts 5400000 dstSchedule.timezone).minute = slot.minute) := by
  refine ⟨⟨by decide, by decide, by decide⟩, by decide, by decide, by decide, by decide⟩

/-- Witness for `recurrence_nextInstants_ordered` at a concrete UTC rule. -/
theorem recurrence_nextInstants_ordered_witness :
    schedThu9.rule.Valid ∧ schedThu9.rule.timeSlots ≠ [] ∧
    schedThu9.rule.daysOfWeek ≠ [] ∧
    ((∀ x ∈ getNextSlotTimes schedThu9.rule 0 2, (0 : Int) ≤ x) ∧
     (getNextSlotTimes schedThu9.rule 0 2).Pairwise (· < ·) ∧
     (getNextSlotTimes schedThu9.rule 0 2).length ≤ 2 ∧
     (∀ cofs : Int, (∀ t, schedThu9.rule.timezone.ofs t = cofs) →
       ∀ x ∈ getNextSlotTimes schedThu9.rule 0 2,
         ∃ slot ∈ schedThu9.rule.timeSlots, ∃ d ∈ schedThu9.rule.daysOfWeek,
           (getLocalParts x schedThu9.rule.timezone).hour = slot.hour ∧
           (getLocalParts x schedThu9.rule.timezone).minute = slot.minute ∧
           (getLocalParts x schedThu9.rule.timezone).dayOfWeek = d)) :=
  ⟨⟨by decide, by decide, by decide⟩, by decide, by decide,
    recurrence_nextInstants_ordered schedThu9.rule 0 2
      ⟨by decide, by decide, by decide⟩ (by decide) (by decide)⟩

/-! ## Slot allocator -/

theorem allocLoop_some (store : AllocStore) (sd : ScheduleDoc) (acct : Nat)
    (fromUtc : Int) (fuel : Nat) (t : Int)
    (h : allocLoop store sd acct fromUtc fuel = some t) :
    alreadyUsed store acct t = false ∧
    countScheduledSlotsInRange store acct (getDayStartInUtc t sd.rule.timezone)
      (getDayStartInUtc t sd.rule.timezone + msDay) < maxPerDayEff sd.rule := by
  induction fuel generalizing fromUtc with
  | zero => simp [allocLoop] at h
  | succ n ih =>
    unfold allocLoop at h
    split at h
    · cases h
    · dsimp only at h
      split at h
      · exact ih _ h
      · split at h
        · exact ih _ h
        · simp only [Option.some.injEq] at h
          subst h
          rename_i hcapn husedn
          exact ⟨by simpa using husedn, by omega⟩

theorem getNextAvailableSlot_some (store : AllocStore) (acct : Nat)
    (fromUtc t : Int) (sd : ScheduleDoc) (hs : findSchedule store acct = some sd)
    (h : getNextAvailableSlot store acct fromUtc = some t) :
    alreadyUsed store acct t = false ∧
    countScheduledSlotsInRange store acct (getDayStartInUtc t sd.rule.timezone)
      (getDayStartInUtc t sd.rule.timezone + msDay) < maxPerDayEff sd.rule := by
  unfold getNextAvailableSlot at h
  rw [hs] at h
  dsimp only at h
  split at h
  · cases h
  · exact allocLoop_some _ _ _ _ _ _ h

/-- C1 (amended) — A successful `getNextAvailableSlot` never returns an
instant at which the account already has a Queue Slot in status `scheduled`,
`publishing` or `published` (the statuses the double-booking query blocks).
Slots in status `available`, `failed` — both non-canceled — or `canceled` do
not block, which is what refutes the original "any status other than
canceled" phrasing (see the counterexample). -/
theorem allocator_no_active_duplicate (store : AllocStore) (acct : Nat)
    (fromUtc t : Int) (h : getNextAvailableSlot store acct fromUtc = some t) :
    alreadyUsed store acct t = false := by
  unfold getNextAvailableSlot at h
  split at h
  · cases h
  · split at h
    · cases h
    · exact (allocLoop_some _ _ _ _ _ _ h).1

/-- Witness for `allocator_no_active_duplicate`. -/
theorem allocator_no_active_duplicate_witness :
    getNextAvailableSlot storeFailedSlot 1 0 = some 32400000 ∧
    alreadyUsed storeFailedSlot 1 32400000 = false :=
  ⟨by decide, allocator_no_active_duplicate storeFailedSlot 1 0 32400000 (by decide)⟩

/-- C1 (counterexample) — `storeFailedSlot` holds a non-canceled (`failed`)
Queue Slot for account 1 at instant 32400000, yet `reserveNext`
(`getNextAvailableSlot` followed by the `QueueSlot` creation in
`allocateSlotForPost`) books exactly that instant again, leaving two
non-canceled slots on the same (account, instant) pair. -/
theorem allocator_nonCanceled_duplicate_cex :
    (∃ q ∈ storeFailedSlot.queueSlots, q.socialAccountId = 1 ∧
      q.scheduledAt = 32400000 ∧ q.status ≠ .canceled) ∧
    getNextAvailableSlot storeFailedSlot 1 0 = some 32400000 ∧
    ((allocateSlotForPost storeFailedSlot 7 [1] 1 (-120000)).toOption.map
      fun r => r.1.queueSlots.countP fun q =>
        q.socialAccountId == 1 && q.scheduledAt == 32400000 &&
        !(q.status == SlotStatus.canceled)) = some 2 := by
  refine ⟨by decide, by decide, by decide⟩

/-- C7 (amended) — A successful `getNextAvailableSlot` happens only when the
allocator's own day count — slots in status `scheduled`/`publishing`/
`published` (maxed with overlapping posts) over the candidate's computed
local-day window — is strictly below the effective `maxPostsPerDay`, so
inserting the new booking keeps the count of active-status slots in that
window at or below the cap.  Slots in the non-canceled statuses `failed` and
`available` are not counted, which refutes the original "non-canceled
bookings" phrasing (see the counterexample). -/
theorem allocator_daily_cap_guard (store : AllocStore) (acct : Nat)
    (fromUtc t : Int) (sd : ScheduleDoc)
    (hs : findSchedule store acct = some sd)
    (h : getNextAvailableSlot store acct fromUtc = some t) :
    countScheduledSlotsInRange store acct (getDayStartInUtc t sd.rule.timezone)
      (getDayStartInUtc t sd.rule.timezone + msDay) < maxPerDayEff sd.rule ∧
    ∀ orgId postId : Nat,
      ((store.queueSlots ++
        [({ organizationId := orgId, socialAccountId := acct, scheduledAt := t
            postId := some postId, status := .scheduled } : QueueSlotDoc)]).countP
        fun (q : QueueSlotDoc) =>
        q.socialAccountId == acct &&
        decide (getDayStartInUtc t sd.rule.timezone ≤ q.scheduledAt) &&
        decide (q.scheduledAt < getDayStartInUtc t sd.rule.timezone + msDay) &&
        activeSlotStatus q.status) ≤ maxPerDayEff sd.rule := by
  have hmain := getNextAvailableSlot_some store acct fromUtc t sd hs h
  refine ⟨hmain.2, fun orgId postId => ?_⟩
  have hslot : (store.queueSlots.countP fun q =>
      q.socialAccountId == acct &&
      decide (getDayStartInUtc t sd.rule.timezone ≤ q.scheduledAt) &&
      decide (q.scheduledAt < getDayStartInUtc t sd.rule.timezone + msDay) &&
      activeSlotStatus q.status) ≤
      countScheduledSlotsInRange store acct (getDayStartInUtc t sd.rule.timezone)
        (getDayStartInUtc t sd.rule.timezone + msDay) := by
    unfold countScheduledSlotsInRange
    exact le_max_left _ _
  rw [List.countP_append]
  have := hmain.2
  simp only [List.countP_cons, List.countP_nil]
  split <;> omega

/-- Witness for `allocator_daily_cap_guard`. -/
theorem allocator_daily_cap_guard_witness :
    findSchedule storeFailedSlot 1 = some schedThu9 ∧
    getNextAvailableSlot storeFailedSlot 1 0 = some 32400000 ∧
    (countScheduledSlotsInRange storeFailedSlot 1
        (getDayStartInUtc 32400000 schedThu9.rule.timezone)
        (getDayStartInUtc 32400000 schedThu9.rule.timezone + msDay) <
      maxPerDayEff schedThu9.rule) :=
  ⟨rfl, by decide,
    (allocator_daily_cap_guard storeFailedSlot 1 0 32400000 schedThu9 rfl (by decide)).1⟩

/-- C7 (counterexample) — With `maxPostsPerDay = 1` and one non-canceled
(`failed`) slot already on the local day, `reserveNext` books a second slot
on the same local day: the resulting non-canceled bookings for the day
number 2, exceeding the cap 1. -/
theorem allocator_daily_cap_cex :
    maxPerDayEff schedThu9Cap1.rule = 1 ∧
    getDayStartInUtc 32400000 schedThu9Cap1.rule.timezone = 0 ∧
    ((allocateSlotForPost storeCapFailed 8 [2] 1 (-120000)).toOption.map
      fun r => r.1.queueSlots.countP fun q =>
        q.socialAccountId == 2 && decide ((0 : Int) ≤ q.scheduledAt) &&
        decide (q.scheduledAt < 86400000) &&
        !(q.status == SlotStatus.canceled)) = some 2 := by
  refine ⟨by decide, by decide, by decide⟩

theorem allocLoop_first_ok (store : AllocStore) (sd : ScheduleDoc)
    (acct : Nat) (fromUtc c : Int) (fuel : Nat)
    (hc : getNextSlotTime sd.rule fromUtc = some c)
    (hcap : countScheduledSlotsInRange store acct
        (getDayStartInUtc c sd.rule.timezone)
        (getDayStartInUtc c sd.rule.timezone + msDay) < maxPerDayEff sd.rule)
    (hused : alreadyUsed store acct c = false) :
    allocLoop store sd acct fromUtc (fuel + 1) = some c := by
  unfold allocLoop
  rw [hc]
  dsimp only
  rw [if_neg (by omega), if_neg (by simp [hused])]

theorem allocAccountsLoop_schedules (postId orgId : Nat)
    (store : AllocStore) (fromUtc : Int) (accts : List Nat)
    (st : AllocStore) (f : Int) (sl : List (Nat × Int))
    (h : allocAccountsLoop postId orgId store fromUtc accts = .ok (st, f, sl)) :
    st.schedules = store.schedules ∧ st.posts = store.posts := by
  induction accts generalizing store fromUtc st f sl with
  | nil =>
    simp only [allocAccountsLoop] at h
    cases h
    exact ⟨rfl, rfl⟩
  | cons a rest ih =>
    unfold allocAccountsLoop at h
    split at h
    · cases h
    · dsimp only at h
      split at h
      · cases h
      · simp only [Except.ok.injEq, Prod.mk.injEq] at h
        obtain ⟨h1, -, -⟩ := h
        subst h1
        have hrec := ih _ _ _ _ _ (by assumption)
        simpa using hrec

/-- C8 (amended) — The allocator implements no skip-next step: (a) the first
candidate that passes the daily-cap and double-booking checks is booked
immediately, and (b) a successful `allocateSlotForPost` leaves every
`AccountSchedule` document unchanged — no rule field (in particular no skip
flag, which the `AccountSchedule` schema does not even define) is ever
mutated by allocation. -/
theorem allocator_no_skip_handling :
    (∀ (store : AllocStore) (acct : Nat) (fromUtc : Int) (sd : ScheduleDoc)
      (c : Int), findSchedule store acct = some sd →
      sd.rule.timeSlots ≠ [] →
      getNextSlotTime sd.rule fromUtc = some c →
      countScheduledSlotsInRange store acct
        (getDayStartInUtc c sd.rule.timezone)
        (getDayStartInUtc c sd.rule.timezone + msDay) < maxPerDayEff sd.rule →
      alreadyUsed store acct c = false →
      getNextAvailableSlot store acct fromUtc = some c) ∧
    (∀ (store : AllocStore) (postId : Nat) (accts : List Nat)
      (orgId : Nat) (now : Int) (st : AllocStore) (e : Int)
      (sl : List (Nat × Int)),
      allocateSlotForPost store postId accts orgId now = .ok (st, e, sl) →
      st.schedules = store.schedules) := by
  constructor
  · intro store acct fromUtc sd c hs hts hc hcap hused
    unfold getNextAvailableSlot
    rw [hs]
    dsimp only
    rw [if_neg hts]
    exact allocLoop_first_ok store sd acct fromUtc c 671 hc hcap hused
  · intro store postId accts orgId now st e sl h
    unfold allocateSlotForPost at h
    split at h
    · cases h
    · split at h
      · cases h
      · split at h
        · cases h
        · dsimp only at h
          split at h
          · cases h
          · simp only [Except.ok.injEq, Prod.mk.injEq] at h
            obtain ⟨h1, -, -⟩ := h
            subst h1
            have hrec := allocAccountsLoop_schedules postId orgId store _ accts _ _ _
              (by assumption)
            simpa using hrec.1

/-- Witness for `allocator_no_skip_handling`. -/
theorem allocator_no_skip_handling_witness :
    findSchedule storeSkipSet.base 3 = some schedTwoSlots ∧
    getNextSlotTime schedTwoSlots.rule 0 = some 32400000 ∧
    getNextAvailableSlot storeSkipSet.base 3 0 = some 32400000 :=
  ⟨rfl, by decide,
    (allocator_no_skip_handling).1 storeSkipSet.base 3 0 schedTwoSlots 32400000
      rfl (by decide) (by decide) (by decide) (by decide)⟩

/-- C8 (counterexample) — With the spec's `skipNext` flag set for account 3
and two free candidates (09:00 and 12:00), the allocator books the *first*
candidate, does not book the second as the skip semantics would demand, and
the flag is still set after the call (the source defines and mutates no such
field). -/
theorem allocator_skipNext_cex :
    lookupSkip storeSkipSet 3 = some true ∧
    getNextSlotTime schedTwoSlots.rule 0 = some 32400000 ∧
    getNextSlotTimes schedTwoSlots.rule 0 2 = [32400000, 43200000] ∧
    (getNextAvailableSlotX storeSkipSet 3 0).1 = some 32400000 ∧
    (getNextAvailableSlotX storeSkipSet 3 0).1 ≠ some 43200000 ∧
    lookupSkip (getNextAvailableSlotX storeSkipSet 3 0).2 3 = some true := by
  refine ⟨by decide, by decide, by decide, by decide, by decide, by decide⟩

theorem allocLoopCount_le (store : AllocStore) (sd : ScheduleDoc) (acct : Nat)
    (fromUtc : Int) (fuel : Nat) :
    (allocLoopCount store sd acct fromUtc fuel).2 ≤ fuel := by
  induction fuel generalizing fromUtc with
  | zero => simp [allocLoopCount]
  | succ n ih =>
    unfold allocLoopCount
    split
    · simp
    · next cand _ =>
      dsimp only
      split
      · have := ih (cand + msMin)
        omega
      · split
        · have := ih (cand + msMin)
          omega
        · simp

theorem allocLoopCount_fst (store : AllocStore) (sd : ScheduleDoc) (acct : Nat)
    (fromUtc : Int) (fuel : Nat) :
    (allocLoopCount store sd acct fromUtc fuel).1 =
      allocLoop store sd acct fromUtc fuel := by
  induction fuel generalizing fromUtc with
  | zero => simp [allocLoopCount, allocLoop]
  | succ n ih =>
    unfold allocLoopCount allocLoop
    split
    · simp
    · next cand _ =>
      dsimp only
      split
      · exact ih (cand + msMin)
      · split
        · exact ih (cand + msMin)
        · simp

theorem allocLoop_all_capped (store : AllocStore) (sd : ScheduleDoc)
    (acct : Nat)
    (hcap : ∀ c : Int, maxPerDayEff sd.rule ≤
      countScheduledSlotsInRange store acct
        (getDayStartInUtc c sd.rule.timezone)
        (getDayStartInUtc c sd.rule.timezone + msDay)) :
    ∀ (fromUtc : Int) (fuel : Nat),
      allocLoop store sd acct fromUtc fuel = none := by
  intro fromUtc fuel
  induction fuel generalizing fromUtc with
  | zero => simp [allocLoop]
  | succ n ih =>
    unfold allocLoop
    split
    · rfl
    · next cand _ =>
      dsimp only
      rw [if_pos (hcap cand)]
      exact ih (cand + msMin)

/-- C9 — The allocator's candidate search is bounded: the instrumented loop
(`allocLoopCount`, which also counts candidate attempts) computes exactly
`getNextAvailableSlot`'s result, performs at most `14 * 24 * 2 = 672`
candidate attempts, and when every candidate day is at the cap the search
returns no-slot-available (`none`) instead of looping forever. -/
theorem allocator_bounded_search (store : AllocStore) (acct : Nat)
    (fromUtc : Int) (sd : ScheduleDoc)
    (hs : findSchedule store acct = some sd)
    (hts : sd.rule.timeSlots ≠ []) :
    (allocLoopCount store sd acct fromUtc attemptCap).2 ≤ 672 ∧
    getNextAvailableSlot store acct fromUtc =
      (allocLoopCount store sd acct fromUtc attemptCap).1 ∧
    ((∀ c : Int, maxPerDayEff sd.rule ≤
        countScheduledSlotsInRange store acct
          (getDayStartInUtc c sd.rule.timezone)
          (getDayStartInUtc c sd.rule.timezone + msDay)) →
      getNextAvailableSlot store acct fromUtc = none) := by
  refine ⟨allocLoopCount_le store sd acct fromUtc attemptCap, ?_, ?_⟩
  · unfold getNextAvailableSlot
    rw [hs]
    dsimp only
    rw [if_neg hts]
    exact (allocLoopCount_fst store sd acct fromUtc attemptCap).symm
  · intro hcap
    unfold getNextAvailableSlot
    rw [hs]
    dsimp only
    rw [if_neg hts]
    exact allocLoop_all_capped store sd acct hcap fromUtc attemptCap

theorem dayStart_weird (c : Int) : getDayStartInUtc c weirdTz = -6000000 := by
  unfold getDayStartInUtc weirdTz
  dsimp only
  have h1 : c + (6000000 - c) = 6000000 := by ring
  rw [h1]
  decide

/-- Witness for `allocator_bounded_search`: a store in which every candidate
local day of account 4 is at the cap, so the bounded search exhausts and
returns `none`. -/
theorem allocator_bounded_search_witness :
    findSchedule storeWeird 4 = some schedWeird ∧
    schedWeird.rule.timeSlots ≠ [] ∧
    (allocLoopCount storeWeird schedWeird 4 0 attemptCap).2 ≤ 672 ∧
    getNextAvailableSlot storeWeird 4 0 = none := by
  have hcap : ∀ c : Int, maxPerDayEff schedWeird.rule ≤
      countScheduledSlotsInRange storeWeird 4
        (getDayStartInUtc c schedWeird.rule.timezone)
        (getDayStartInUtc c schedWeird.rule.timezone + msDay) := by
    intro c
    have hz : schedWeird.rule.timezone = weirdTz := rfl
    rw [hz, dayStart_weird c]
    decide
  have h := allocator_bounded_search storeWeird 4 0 schedWeird rfl (by decide)
  exact ⟨rfl, by decide, h.1, h.2.2 hcap⟩

/-! ## Token broker -/

theorem findAccount_updateAccount (accounts : List SocialAccountDoc)
    (id : Nat) (f : SocialAccountDoc → SocialAccountDoc)
    (hf : ∀ a, (f a).id = a.id) :
    findAccount (updateAccount accounts id f) id =
      (findAccount accounts id).map f := by
  induction accounts with
  | nil => rfl
  | cons a rest ih =>
    unfold findAccount updateAccount
    unfold findAccount updateAccount at ih
    cases hb : (a.id == id) with
    | true =>
      have hfa : ((f a).id == id) = true := by rw [hf]; exact hb
      have h1 : (if (a.id == id) = true then f a else a) = f a := if_pos hb
      rw [List.map_cons, h1, List.find?_cons, List.find?_cons, hfa, hb]
      rfl
    | false =>
      have h1 : (if (a.id == id) = true then f a else a) = a :=
        if_neg (by simp [hb])
      rw [List.map_cons, h1, List.find?_cons, List.find?_cons, hb]
      exact ih

/-- C6 — For an account in status `active` or `expired` whose stored expiry
is within the 5-minute buffer of now and which has no (JS-truthy) refresh
credential, `getValidAccessToken` marks the account `expired` with
`lastErrorCode` `NO_REFRESH_TOKEN`, throws the `TOKEN_EXPIRED` error, makes
no adapter call at all (in particular never invokes the refresh operation),
and the thrown error is in the class `publish.job.js` returns on without a
retry (non-retryable). -/
theorem token_no_refresh_expires (env : PubEnv) (db : PubDB) (id : Nat)
    (account : SocialAccountDoc) (e : Int) (tok : String)
    (hfind : findAccount db.accounts id = some account)
    (hstatus : account.status = "active" ∨ account.status = "expired")
    (hexp : account.tokenExpiresAt = some e)
    (hbuf : e - 5 * 60 * 1000 ≤ env.now)
    (hnorefresh : jsStrTruthy account.refreshToken = false)
    (hdec : env.decrypt account.accessToken = some tok) :
    (getValidAccessToken env db id).2.2 =
      .error (errWith "TOKEN_EXPIRED" "Token expired and no refresh token") ∧
    (getValidAccessToken env db id).2.1 = [] ∧
    findAccount (getValidAccessToken env db id).1.accounts id =
      some { account with status := "expired"
                          lastErrorCode := some "NO_REFRESH_TOKEN" } ∧
    ((errWith "TOKEN_EXPIRED" "Token expired and no refresh token").name ==
        "OAuthError" ||
      (errWith "TOKEN_EXPIRED" "Token expired and no refresh token").code ==
        some "TOKEN_EXPIRED") = true := by
  have h1 : (account.status == "active" || account.status == "expired") = true := by
    rcases hstatus with h | h <;> simp [h]
  have h2 : decide (e - 5 * 60 * 1000 ≤ env.now) = true := decide_eq_true hbuf
  have hrun : getValidAccessToken env db id =
      ({ db with accounts := updateAccount db.accounts id fun a =>
          { a with status := "expired"
                   lastErrorCode := some "NO_REFRESH_TOKEN" } }, [],
        .error (errWith "TOKEN_EXPIRED" "Token expired and no refresh token")) := by
    unfold getValidAccessToken
    rw [hfind]
    dsimp only
    rw [h1]
    simp only [Bool.not_true, Bool.false_eq_true, if_false]
    rw [hexp]
    dsimp only
    rw [hdec]
    dsimp only
    rw [h2, hnorefresh]
    simp only [Bool.and_false, Bool.false_eq_true, if_false]
    unfold tokenTail
    rw [hnorefresh]
    simp
  rw [hrun]
  refine ⟨rfl, rfl, ?_, rfl⟩
  dsimp only
  rw [findAccount_updateAccount db.accounts id
    (fun a => { a with status := "expired"
                       lastErrorCode := some "NO_REFRESH_TOKEN" })
    (fun a => rfl), hfind]
  rfl

/-- Witness for `token_no_refresh_expires`. -/
theorem token_no_refresh_expires_witness :
    findAccount dbExpired.accounts 15 = some expiredNoRefreshAccount ∧
    (expiredNoRefreshAccount.status = "active" ∨
      expiredNoRefreshAccount.status = "expired") ∧
    expiredNoRefreshAccount.tokenExpiresAt = some 0 ∧
    (0 : Int) - 5 * 60 * 1000 ≤ envMix.now ∧
    jsStrTruthy expiredNoRefreshAccount.refreshToken = false ∧
    envMix.decrypt expiredNoRefreshAccount.accessToken = some "tok" ∧
    ((getValidAccessToken envMix dbExpired 15).2.2 =
      .error (errWith "TOKEN_EXPIRED" "Token expired and no refresh token") ∧
     (getValidAccessToken envMix dbExpired 15).2.1 = [] ∧
     findAccount (getValidAccessToken envMix dbExpired 15).1.accounts 15 =
       some { expiredNoRefreshAccount with
                status := "expired"
                lastErrorCode := some "NO_REFRESH_TOKEN" } ∧
     ((errWith "TOKEN_EXPIRED" "Token expired and no refresh token").name ==
         "OAuthError" ||
       (errWith "TOKEN_EXPIRED" "Token expired and no refresh token").code ==
         some "TOKEN_EXPIRED") = true) :=
  ⟨rfl, Or.inl rfl, rfl, by decide, rfl, rfl,
    token_no_refresh_expires envMix dbExpired 15 expiredNoRefreshAccount 0 "tok"
      rfl (Or.inl rfl) rfl (by decide) rfl rfl⟩

/-! ## Publish orchestrator: helper lemmas -/

theorem find?_map_upsert (results : List PublishResultDoc) (pid acct c : Nat)
    (f : PublishResultDoc → PublishResultDoc) (hc : c ≠ acct)
    (hf : ∀ x, (f x).postId = pid ∧ (f x).socialAccountId = acct) :
    List.find? (fun x => x.postId == pid && x.socialAccountId == c)
      (results.map fun x =>
        if x.postId == pid && x.socialAccountId == acct then f x else x) =
    List.find? (fun x => x.postId == pid && x.socialAccountId == c) results := by
  induction results with
  | nil => rfl
  | cons x rest ih =>
    by_cases hk : (x.postId == pid && x.socialAccountId == acct) = true
    · have hk2 : x.postId = pid ∧ x.socialAccountId = acct := by
        simpa using hk
      have hgx : (if (x.postId == pid && x.socialAccountId == acct) = true
          then f x else x) = f x := if_pos hk
      have hqx : (x.postId == pid && x.socialAccountId == c) = false := by
        simp [hk2.1, hk2.2]
        omega
      have hqfx : ((f x).postId == pid && (f x).socialAccountId == c) = false := by
        simp [(hf x).1, (hf x).2]
        omega
      rw [List.map_cons, hgx, List.find?_cons, List.find?_cons, hqx, hqfx]
      exact ih
    · have hgx : (if (x.postId == pid && x.socialAccountId == acct) = true
          then f x else x) = x := if_neg hk
      rw [List.map_cons, hgx, List.find?_cons, List.find?_cons]
      cases hq : (x.postId == pid && x.socialAccountId == c)
      · exact ih
      · rfl

theorem find?_append_single_false {α : Type} (q : α → Bool) (l : List α)
    (y : α) (hy : q y = false) :
    List.find? q (l ++ [y]) = List.find? q l := by
  induction l with
  | nil => simp [List.find?_cons, hy]
  | cons x rest ih =>
    rw [List.cons_append, List.find?_cons, List.find?_cons]
    cases hq : q x
    · exact ih
    · rfl

theorem lookupResult_upsert_other (results : List PublishResultDoc)
    (pid acct c : Nat) (f : PublishResultDoc → PublishResultDoc) (hc : c ≠ acct)
    (hf : ∀ x, (f x).postId = pid ∧ (f x).socialAccountId = acct) :
    lookupResult (upsertResultWith results pid acct f) pid c =
      lookupResult results pid c := by
  unfold upsertResultWith lookupResult
  split
  · exact find?_map_upsert results pid acct c f hc hf
  · refine find?_append_single_false _ _ _ ?_
    simp [(hf (emptyResult pid acct)).1, (hf (emptyResult pid acct)).2]
    omega

theorem findPost_updatePost (posts : List PostDoc) (id : Nat)
    (f : PostDoc → PostDoc) (hf : ∀ p, (f p).id = p.id) :
    findPost (updatePost posts id f) id = (findPost posts id).map f := by
  induction posts with
  | nil => rfl
  | cons a rest ih =>
    unfold findPost updatePost
    unfold findPost updatePost at ih
    cases hb : (a.id == id) with
    | true =>
      have hfa : ((f a).id == id) = true := by rw [hf]; exact hb
      have h1 : (if (a.id == id) = true then f a else a) = f a := if_pos hb
      rw [List.map_cons, h1, List.find?_cons, List.find?_cons, hfa, hb]
      rfl
    | false =>
      have h1 : (if (a.id == id) = true then f a else a) = a :=
        if_neg (by simp [hb])
      rw [List.map_cons, h1, List.find?_cons, List.find?_cons, hb]
      exact ih

theorem gvat_shape (env : PubEnv) (db : PubDB) (id : Nat) :
    (getValidAccessToken env db id).1.posts = db.posts ∧
    (getValidAccessToken env db id).1.results = db.results ∧
    ∀ ev ∈ (getValidAccessToken env db id).2.1, ev = Ev.adapterRefresh id := by
  unfold getValidAccessToken tokenTail
  dsimp only
  repeat' split
  all_goals exact ⟨rfl, rfl, by intro ev hev; simp at hev; try exact hev⟩

theorem gvat_param (env : PubEnv) (id : Nat) (db db' : PubDB)
    (ha : db.accounts = db'.accounts) :
    (getValidAccessToken env db id).1.accounts =
      (getValidAccessToken env db' id).1.accounts ∧
    (getValidAccessToken env db id).2 = (getValidAccessToken env db' id).2 := by
  unfold getValidAccessToken tokenTail
  rw [ha]
  dsimp only
  repeat' split
  all_goals exact ⟨by first | rfl | exact ha, rfl⟩

theorem ppta_posts (env : PubEnv) (db : PubDB) (pid acct : Nat) :
    (publishPostToAccount env db pid acct).1.posts = db.posts := by
  have hg := (gvat_shape env db acct).1
  unfold publishPostToAccount
  dsimp only
  repeat' split
  all_goals simp [hg]

theorem ppta_events (env : PubEnv) (db : PubDB) (pid acct : Nat) :
    ∀ ev ∈ (publishPostToAccount env db pid acct).2.1,
      ev = Ev.adapterPublish acct ∨ ev = Ev.adapterRefresh acct := by
  have hg := (gvat_shape env db acct).2.2
  unfold publishPostToAccount
  dsimp only
  repeat' split
  all_goals intro ev hev
  all_goals first
    | (rcases List.mem_append.mp hev with h | h
       · exact Or.inr (hg ev h)
       · exact Or.inl (by simpa using h))
    | exact Or.inr (hg ev hev)
    | simp at hev

theorem ppta_results_other (env : PubEnv) (db : PubDB) (pid acct c : Nat)
    (hc : c ≠ acct) :
    lookupResult (publishPostToAccount env db pid acct).1.results pid c =
      lookupResult db.results pid c := by
  have hgr := (gvat_shape env db acct).2.1
  unfold publishPostToAccount
  dsimp only
  repeat' split
  all_goals first
    | rfl
    | exact hgr ▸ rfl
    | (dsimp only
       refine (lookupResult_upsert_other _ _ _ _ _ hc ?_).trans ?_
       · exact fun x => ⟨rfl, rfl⟩
       · rw [hgr])

theorem ppta_rl_results (env : PubEnv) (db : PubDB) (pid acct : Nat)
    (err : JsError) (hname : err.name = "ProviderRateLimitError")
    (hcode : err.code = some "RATE_LIMIT") :
    (publishPostToAccount env db pid acct).2.2 = .error err →
    (publishPostToAccount env db pid acct).1.results = db.results := by
  have hgr := (gvat_shape env db acct).2.1
  unfold publishPostToAccount
  dsimp only
  repeat' split
  all_goals intro hout
  all_goals first
    | rfl
    | exact hgr
    | (cases hout <;> simp_all)

theorem ppta_param (env : PubEnv) (pid acct : Nat) (db db' : PubDB)
    (hp : db.posts = db'.posts) (ha : db.accounts = db'.accounts) :
    (publishPostToAccount env db pid acct).1.posts =
      (publishPostToAccount env db' pid acct).1.posts ∧
    (publishPostToAccount env db pid acct).1.accounts =
      (publishPostToAccount env db' pid acct).1.accounts ∧
    (publishPostToAccount env db pid acct).2 =
      (publishPostToAccount env db' pid acct).2 := by
  obtain ⟨hga, hgt⟩ := gvat_param env acct db db' ha
  have hpostL := (gvat_shape env db acct).1
  have hpostR := (gvat_shape env db' acct).1
  unfold publishPostToAccount
  dsimp only
  rw [hp, ha,
    show (getValidAccessToken env db' acct).2 =
      (getValidAccessToken env db acct).2 from hgt.symm,
    show (getValidAccessToken env db' acct).1.accounts =
      (getValidAccessToken env db acct).1.accounts from hga.symm]
  repeat' split
  all_goals exact
    ⟨by first | exact hp | simp [hpostL, hpostR, hp],
     by first | exact ha | exact hga | simp [hga],
     rfl⟩

theorem publishLoop_posts (env : PubEnv) (postId : Nat) (accts : List Nat) :
    ∀ (db : PubDB) (anyS : Bool) (lastE : Option JsError),
      (publishLoop env postId db anyS lastE accts).1.posts = db.posts := by
  induction accts with
  | nil => intro db anyS lastE; rfl
  | cons acct rest ih =>
    intro db anyS lastE
    unfold publishLoop
    dsimp only
    cases hstep : (publishPostToAccount env db postId acct).2.2 with
    | ok res =>
      dsimp only
      rw [ih]
      exact ppta_posts env db postId acct
    | error e =>
      dsimp only
      by_cases hn : (e.name == "ProviderRateLimitError") = true
      · rw [if_pos hn]
        exact ppta_posts env db postId acct
      · rw [if_neg hn]
        dsimp only
        rw [ih]
        exact ppta_posts env db postId acct

theorem publishLoop_rl (env : PubEnv) (postId : Nat) (accts : List Nat) :
    ∀ (db : PubDB) (anyS : Bool) (lastE : Option JsError) (a : Nat)
      (err : JsError) (rest : List Nat),
    (publishLoop env postId db anyS lastE accts).2.2.2.2.2 = some (a, err, rest) →
    err.name = "ProviderRateLimitError" → err.code = some "RATE_LIMIT" →
    ∃ pre, accts = pre ++ a :: rest ∧
      (∀ c, c ∉ pre →
        lookupResult (publishLoop env postId db anyS lastE accts).1.results
          postId c = lookupResult db.results postId c) ∧
      (∀ ev ∈ (publishLoop env postId db anyS lastE accts).2.1,
        ∃ b, (b ∈ pre ∨ b = a) ∧
          (ev = Ev.adapterPublish b ∨ ev = Ev.adapterRefresh b)) := by
  induction accts with
  | nil =>
    intro db anyS lastE a err rest h
    simp [publishLoop] at h
  | cons acct rest' ih =>
    intro db anyS lastE a err rest hout hname hcode
    unfold publishLoop at hout ⊢
    dsimp only at hout ⊢
    cases hstep : (publishPostToAccount env db postId acct).2.2 with
    | ok res =>
      rw [hstep] at hout
      dsimp only at hout ⊢
      obtain ⟨pre, hpre, hres, hevs⟩ :=
        ih (publishPostToAccount env db postId acct).1 true lastE a err rest
          hout hname hcode
      refine ⟨acct :: pre, by rw [List.cons_append, hpre], ?_, ?_⟩
      · intro c hcnot
        have hc1 : c ≠ acct := fun h => hcnot (h ▸ List.mem_cons_self _ _)
        have hc2 : c ∉ pre := fun h => hcnot (List.mem_cons_of_mem _ h)
        exact (hres c hc2).trans (ppta_results_other env db postId acct c hc1)
      · intro ev hev
        rcases List.mem_append.mp hev with h | h
        · exact ⟨acct, Or.inl (List.mem_cons_self _ _),
            ppta_events env db postId acct ev h⟩
        · obtain ⟨b, hb, hbe⟩ := hevs ev h
          exact ⟨b, hb.imp (List.mem_cons_of_mem _) id, hbe⟩
    | error e =>
      rw [hstep] at hout
      dsimp only at hout ⊢
      by_cases hn : (e.name == "ProviderRateLimitError") = true
      · rw [if_pos hn] at hout ⊢
        dsimp only at hout
        simp only [Option.some.injEq, Prod.mk.injEq] at hout
        obtain ⟨ha1, ha2, ha3⟩ := hout
        subst ha1
        subst ha2
        subst ha3
        refine ⟨[], by simp, ?_, ?_⟩
        · intro c _
          have hre := ppta_rl_results env db postId acct e hname hcode hstep
          rw [hre]
        · intro ev hev
          exact ⟨acct, Or.inr rfl, ppta_events env db postId acct ev hev⟩
      · rw [if_neg hn] at hout ⊢
        dsimp only at hout ⊢
        obtain ⟨pre, hpre, hres, hevs⟩ :=
          ih (publishPostToAccount env db postId acct).1 anyS (some e) a err
            rest hout hname hcode
        refine ⟨acct :: pre, by rw [List.cons_append, hpre], ?_, ?_⟩
        · intro c hcnot
          have hc1 : c ≠ acct := fun h => hcnot (h ▸ List.mem_cons_self _ _)
          have hc2 : c ∉ pre := fun h => hcnot (List.mem_cons_of_mem _ h)
          exact (hres c hc2).trans (ppta_results_other env db postId acct c hc1)
        · intro ev hev
          rcases List.mem_append.mp hev with h | h
          · exact ⟨acct, Or.inl (List.mem_cons_self _ _),
              ppta_events env db postId acct ev h⟩
          · obtain ⟨b, hb, hbe⟩ := hevs ev h
            exact ⟨b, hb.imp (List.mem_cons_of_mem _) id, hbe⟩

/-- C3 — When the per-account loop of `publishPost` is interrupted by a
`ProviderRateLimitError` (rate-limit signal) at account `a`: no Publish
Outcome row is written for `a`, the accounts after `a` are neither attempted
(no adapter-publish call) nor get outcome rows, the post's status is restored
to `scheduled`, the error is rethrown, and `processPublishJob` reschedules
the job to `now + (retryAfterSeconds || 60) * 1000` — which is never earlier
than now plus the adapter-provided retry-after (60 s when absent) — as a
deferral (`JobOutcome.delayed`), not a job failure. -/
theorem publish_rate_limit_defers (env : PubEnv) (db : PubDB) (postId : Nat)
    (post : PostDoc) (a : Nat) (err : JsError) (rest : List Nat)
    (hpost : findPost db.posts postId = some post)
    (hnodup : post.socialAccountIds.Nodup)
    (hrl : (publishPostRun env db postId).rlInfo = some (a, err, rest))
    (hname : err.name = "ProviderRateLimitError")
    (hcode : err.code = some "RATE_LIMIT") :
    lookupResult (publishPostRun env db postId).db.results postId a =
      lookupResult db.results postId a ∧
    (∀ b ∈ rest, Ev.adapterPublish b ∉ (publishPostRun env db postId).evs) ∧
    (∀ b ∈ rest,
      lookupResult (publishPostRun env db postId).db.results postId b =
        lookupResult db.results postId b) ∧
    (∃ p, findPost (publishPostRun env db postId).db.posts postId = some p ∧
      p.status = PostStatus.scheduled) ∧
    (publishPostRun env db postId).outcome = .error err ∧
    processPublishJob env db (some postId) =
      ((publishPostRun env db postId).db, (publishPostRun env db postId).evs,
        .delayed (env.now + (jsDelaySec err.retryAfterSeconds : Int) * 1000)) ∧
    env.now + (err.retryAfterSeconds.getD 60 : Int) * 1000 ≤
      env.now + (jsDelaySec err.retryAfterSeconds : Int) * 1000 := by
  by_cases hne : post.socialAccountIds = []
  · exfalso
    unfold publishPostRun at hrl
    rw [hpost] at hrl
    dsimp only at hrl
    rw [if_pos hne] at hrl
    cases hrl
  · have hL : (publishLoop env postId
        { db with posts := updatePost db.posts postId fun p =>
            { p with status := .publishing } }
        false none post.socialAccountIds).2.2.2.2.2 = some (a, err, rest) := by
      unfold publishPostRun at hrl
      rw [hpost] at hrl
      dsimp only at hrl
      rw [if_neg hne] at hrl
      try dsimp only at hrl
      cases hLrl : (publishLoop env postId
          { db with posts := updatePost db.posts postId fun p =>
              { p with status := .publishing } }
          false none post.socialAccountIds).2.2.2.2.2 with
      | none =>
        rw [hLrl] at hrl
        cases hrl
      | some rl =>
        rw [hLrl] at hrl
        dsimp only at hrl
        rw [hrl]
    have hrun : publishPostRun env db postId =
        { db := { (publishLoop env postId
              { db with posts := updatePost db.posts postId fun p =>
                  { p with status := .publishing } }
              false none post.socialAccountIds).1 with
            posts := updatePost (publishLoop env postId
              { db with posts := updatePost db.posts postId fun p =>
                  { p with status := .publishing } }
              false none post.socialAccountIds).1.posts postId fun p =>
                { p with status := .scheduled } }
          evs := (publishLoop env postId
            { db with posts := updatePost db.posts postId fun p =>
                { p with status := .publishing } }
            false none post.socialAccountIds).2.1
          attempts := (publishLoop env postId
            { db with posts := updatePost db.posts postId fun p =>
                { p with status := .publishing } }
            false none post.socialAccountIds).2.2.1
          anySuccess := (publishLoop env postId
            { db with posts := updatePost db.posts postId fun p =>
                { p with status := .publishing } }
            false none post.socialAccountIds).2.2.2.1
          lastError := (publishLoop env postId
            { db with posts := updatePost db.posts postId fun p =>
                { p with status := .publishing } }
            false none post.socialAccountIds).2.2.2.2.1
          rlInfo := some (a, err, rest)
          outcome := .error err } := by
      unfold publishPostRun
      rw [hpost]
      dsimp only
      rw [if_neg hne]
      try dsimp only
      rw [hL]
    obtain ⟨pre, hpre, hres, hevs⟩ :=
      publishLoop_rl env postId post.socialAccountIds
        { db with posts := updatePost db.posts postId fun p =>
            { p with status := .publishing } }
        false none a err rest hL hname hcode
    have hnd : (pre ++ a :: rest).Nodup := hpre ▸ hnodup
    have hndparts := List.nodup_append.mp hnd
    have hapre : a ∉ pre := fun h =>
      hndparts.2.2 h (List.mem_cons_self _ _)
    have hbrest : ∀ b ∈ rest, b ∉ pre ∧ b ≠ a := by
      intro b hb
      constructor
      · exact fun h => hndparts.2.2 h (List.mem_cons_of_mem _ hb)
      · intro h
        exact (List.nodup_cons.mp hndparts.2.1).1 (h ▸ hb)
    rw [hrun]
    dsimp only
    refine ⟨hres a hapre, ?_, ?_, ?_, rfl, ?_, ?_⟩
    · intro b hb hmem
      obtain ⟨c, hc, hce⟩ := hevs _ hmem
      rcases hce with h | h
      · have hbc : b = c := by cases h; rfl
        subst hbc
        rcases hc with h2 | h2
        · exact (hbrest b hb).1 h2
        · exact (hbrest b hb).2 h2
      · cases h
    · intro b hb
      exact hres b (hbrest b hb).1
    · rw [findPost_updatePost _ _
        (fun p => { p with status := PostStatus.scheduled }) (fun p => rfl),
        publishLoop_posts env postId post.socialAccountIds,
        findPost_updatePost _ _
        (fun p => { p with status := PostStatus.publishing }) (fun p => rfl),
        hpost]
      exact ⟨_, rfl, rfl⟩
    · unfold processPublishJob
      dsimp only
      rw [hrun]
      dsimp only
      have hn : (err.name == "ProviderRateLimitError") = true := by
        simp [hname]
      rw [hn]
      simp
    · cases hra : err.retryAfterSeconds with
      | none => simp [jsDelaySec]
      | some n =>
        simp only [jsDelaySec, Option.getD]
        split <;> omega

/-- Witness for `publish_rate_limit_defers`: account 11 publishes, account 12
is rate-limited with retry-after 30 s; the job is rescheduled 30 s out. -/
theorem publish_rate_limit_defers_witness :
    findPost dbRateLimit.posts 22 = some (scheduledPost 22 [11, 12]) ∧
    (scheduledPost 22 [11, 12]).socialAccountIds.Nodup ∧
    (publishPostRun envMix dbRateLimit 22).rlInfo =
      some (12, rateLimitErr, []) ∧
    (processPublishJob envMix dbRateLimit (some 22)).2.2 =
      .delayed (envMix.now + (jsDelaySec (some 30) : Int) * 1000) := by
  have h := publish_rate_limit_defers envMix dbRateLimit 22
    (scheduledPost 22 [11, 12]) 12 rateLimitErr [] rfl (by decide) (by decide)
    rfl rfl
  refine ⟨rfl, by decide, by decide, ?_⟩
  rw [h.2.2.2.2.2.1]
  rfl

theorem getLast?_cons_eq {α : Type} (x : α) (l : List α) :
    (x :: l).getLast? = some (l.getLast?.getD x) := by
  induction l generalizing x with
  | nil => rfl
  | cons z zs ih =>
    rw [List.getLast?_cons_cons, ih z]
    rfl

theorem publishLoop_complete (env : PubEnv) (postId : Nat) (accts : List Nat) :
    ∀ (db : PubDB) (anyS : Bool) (lastE : Option JsError),
    (publishLoop env postId db anyS lastE accts).2.2.2.2.2 = none →
    (publishLoop env postId db anyS lastE accts).2.2.2.1 =
      (anyS || (publishLoop env postId db anyS lastE accts).2.2.1.any attemptOk) ∧
    (publishLoop env postId db anyS lastE accts).2.2.2.2.1 =
      (lastFailure (publishLoop env postId db anyS lastE accts).2.2.1).elim
        lastE some := by
  induction accts with
  | nil =>
    intro db anyS lastE _
    exact ⟨by simp [publishLoop], by simp [publishLoop, lastFailure]⟩
  | cons acct rest ih =>
    intro db anyS lastE hnone
    unfold publishLoop at hnone ⊢
    dsimp only at hnone ⊢
    cases hstep : (publishPostToAccount env db postId acct).2.2 with
    | ok res =>
      rw [hstep] at hnone
      dsimp only at hnone ⊢
      obtain ⟨ih1, ih2⟩ :=
        ih (publishPostToAccount env db postId acct).1 true lastE hnone
      constructor
      · rw [ih1]
        simp [attemptOk]
      · rw [ih2]
        have hlf : lastFailure ((acct, Except.ok res) ::
            (publishLoop env postId (publishPostToAccount env db postId acct).1
              true lastE rest).2.2.1) =
            lastFailure (publishLoop env postId
              (publishPostToAccount env db postId acct).1 true lastE rest).2.2.1 := by
          unfold lastFailure
          rw [List.filterMap_cons]
        rw [hlf]
    | error e =>
      rw [hstep] at hnone
      dsimp only at hnone ⊢
      by_cases hn : (e.name == "ProviderRateLimitError") = true
      · rw [if_pos hn] at hnone
        cases hnone
      · rw [if_neg hn] at hnone ⊢
        dsimp only at hnone ⊢
        obtain ⟨ih1, ih2⟩ :=
          ih (publishPostToAccount env db postId acct).1 anyS (some e) hnone
        constructor
        · rw [ih1]
          simp [attemptOk]
        · rw [ih2]
          have hcons : lastFailure ((acct, Except.error e) ::
              (publishLoop env postId
                (publishPostToAccount env db postId acct).1 anyS (some e)
                rest).2.2.1) =
              some ((lastFailure (publishLoop env postId
                  (publishPostToAccount env db postId acct).1 anyS (some e)
                  rest).2.2.1).getD e) := by
            unfold lastFailure
            rw [List.filterMap_cons]
            dsimp only
            exact getLast?_cons_eq e _
          rw [hcons]
          cases hlf : lastFailure (publishLoop env postId
              (publishPostToAccount env db postId acct).1 anyS (some e)
              rest).2.2.1 <;> rfl

/-- C4 (amended) — When the per-account loop completes without a rate-limit
deferral, the item's final status is `published` exactly when some account's
attempt succeeded and `failed` otherwise, and in the all-failed case the
recorded failure code/message are those of the *last* failure encountered in
account order (`lastError` in the source; `lastFailure` of the in-order
attempts list), with the `PUBLISH_FAILED`/`Publish failed` fallbacks for a
missing code or empty message.  The original claim's "first failure" is
refuted by the counterexample. -/
theorem publish_completed_status (env : PubEnv) (db : PubDB) (postId : Nat)
    (post : PostDoc) (hpost : findPost db.posts postId = some post)
    (hne : post.socialAccountIds ≠ [])
    (hrl : (publishPostRun env db postId).rlInfo = none) :
    (∃ p, findPost (publishPostRun env db postId).db.posts postId = some p ∧
      p.status = (if (publishPostRun env db postId).anySuccess then
        PostStatus.published else PostStatus.failed) ∧
      ((publishPostRun env db postId).anySuccess = false →
        p.failureCode = some (jsOr
          ((publishPostRun env db postId).lastError.bind fun e => e.code)
          "PUBLISH_FAILED") ∧
        p.failureReason = some (jsOr
          ((publishPostRun env db postId).lastError.map fun e => e.message)
          "Publish failed"))) ∧
    (publishPostRun env db postId).anySuccess =
      (publishPostRun env db postId).attempts.any attemptOk ∧
    (publishPostRun env db postId).lastError =
      lastFailure (publishPostRun env db postId).attempts ∧
    (publishPostRun env db postId).outcome = .ok () := by
  have hL : (publishLoop env postId
      { db with posts := updatePost db.posts postId fun p =>
          { p with status := .publishing } }
      false none post.socialAccountIds).2.2.2.2.2 = none := by
    unfold publishPostRun at hrl
    rw [hpost] at hrl
    dsimp only at hrl
    rw [if_neg hne] at hrl
    try dsimp only at hrl
    cases hLrl : (publishLoop env postId
        { db with posts := updatePost db.posts postId fun p =>
            { p with status := .publishing } }
        false none post.socialAccountIds).2.2.2.2.2 with
    | none => rfl
    | some rl =>
      rw [hLrl] at hrl
      cases hrl
  obtain ⟨hany, hlast⟩ := publishLoop_complete env postId post.socialAccountIds
    { db with posts := updatePost db.posts postId fun p =>
        { p with status := .publishing } }
    false none hL
  have hrun : publishPostRun env db postId =
      { db := { (publishLoop env postId
            { db with posts := updatePost db.posts postId fun p =>
                { p with status := .publishing } }
            false none post.socialAccountIds).1 with
          posts := updatePost (publishLoop env postId
            { db with posts := updatePost db.posts postId fun p =>
                { p with status := .publishing } }
            false none post.socialAccountIds).1.posts postId fun p =>
              { p with
                  status := if (publishLoop env postId
                      { db with posts := updatePost db.posts postId fun p =>
                          { p with status := .publishing } }
                      false none post.socialAccountIds).2.2.2.1 then
                    PostStatus.published else PostStatus.failed
                  publishedAt := if (publishLoop env postId
                      { db with posts := updatePost db.posts postId fun p =>
                          { p with status := .publishing } }
                      false none post.socialAccountIds).2.2.2.1 then
                    some env.now else p.publishedAt
                  failureReason := if (publishLoop env postId
                      { db with posts := updatePost db.posts postId fun p =>
                          { p with status := .publishing } }
                      false none post.socialAccountIds).2.2.2.1 then
                    p.failureReason else
                    some (jsOr ((publishLoop env postId
                      { db with posts := updatePost db.posts postId fun p =>
                          { p with status := .publishing } }
                      false none post.socialAccountIds).2.2.2.2.1.map
                        fun e => e.message) "Publish failed")
                  failureCode := if (publishLoop env postId
                      { db with posts := updatePost db.posts postId fun p =>
                          { p with status := .publishing } }
                      false none post.socialAccountIds).2.2.2.1 then
                    p.failureCode else
                    some (jsOr ((publishLoop env postId
                      { db with posts := updatePost db.posts postId fun p =>
                          { p with status := .publishing } }
                      false none post.socialAccountIds).2.2.2.2.1.bind
                        fun e => e.code) "PUBLISH_FAILED") } }
        evs := (publishLoop env postId
          { db with posts := updatePost db.posts postId fun p =>
              { p with status := .publishing } }
          false none post.socialAccountIds).2.1
        attempts := (publishLoop env postId
          { db with posts := updatePost db.posts postId fun p =>
              { p with status := .publishing } }
          false none post.socialAccountIds).2.2.1
        anySuccess := (publishLoop env postId
          { db with posts := updatePost db.posts postId fun p =>
              { p with status := .publishing } }
          false none post.socialAccountIds).2.2.2.1
        lastError := (publishLoop env postId
          { db with posts := updatePost db.posts postId fun p =>
              { p with status := .publishing } }
          false none post.socialAccountIds).2.2.2.2.1
        rlInfo := none
        outcome := .ok () } := by
    unfold publishPostRun
    rw [hpost]
    dsimp only
    rw [if_neg hne]
    try dsimp only
    rw [hL]
  rw [hrun]
  dsimp only
  refine ⟨?_, ?_, ?_, rfl⟩
  · rw [findPost_updatePost, publishLoop_posts env postId post.socialAccountIds,
      findPost_updatePost, hpost]
    · refine ⟨_, rfl, rfl, fun hfalse => ?_⟩
      rw [hfalse]
      exact ⟨rfl, rfl⟩
    · exact fun p => rfl
    · exact fun p => rfl
  · rw [hany]
    simp
  · rw [hlast]
    cases lastFailure (publishLoop env postId
        { db with posts := updatePost db.posts postId fun p =>
            { p with status := .publishing } }
        false none post.socialAccountIds).2.2.1 <;> rfl

/-- C4 (counterexample) — Post 23 targets account 13 (client error `E1`) then
account 14 (client error `E2`); the loop completes with no success and the
recorded failure code is `E2` — the *last* failure — while the first failure
encountered in account order has code `E1`. -/
theorem publish_failure_order_cex :
    (publishPostRun envMix dbTwoFailures 23).rlInfo = none ∧
    (publishPostRun envMix dbTwoFailures 23).anySuccess = false ∧
    (((publishPostRun envMix dbTwoFailures 23).attempts.filterMap fun x =>
      match x.2 with
      | .error e => some e
      | .ok _ => none).head?.map fun e => e.code) = some (some "E1") ∧
    ((findPost (publishPostRun envMix dbTwoFailures 23).db.posts 23).map
      fun p => (p.status, p.failureCode)) =
      some (PostStatus.failed, some "E2") := by
  refine ⟨by decide, by decide, by decide, by decide⟩

/-- Witness for `publish_completed_status`. -/
theorem publish_completed_status_witness :
    findPost dbTwoFailures.posts 23 = some (scheduledPost 23 [13, 14]) ∧
    (scheduledPost 23 [13, 14]).socialAccountIds ≠ [] ∧
    (publishPostRun envMix dbTwoFailures 23).rlInfo = none ∧
    (publishPostRun envMix dbTwoFailures 23).outcome = .ok () := by
  have h := publish_completed_status envMix dbTwoFailures 23
    (scheduledPost 23 [13, 14]) rfl (by decide) (by decide)
  exact ⟨rfl, by decide, by decide, h.2.2.2⟩

theorem publishLoop_param (env : PubEnv) (postId : Nat) (accts : List Nat) :
    ∀ (db db' : PubDB) (anyS : Bool) (lastE : Option JsError),
      db.posts = db'.posts → db.accounts = db'.accounts →
      (publishLoop env postId db anyS lastE accts).1.posts =
        (publishLoop env postId db' anyS lastE accts).1.posts ∧
      (publishLoop env postId db anyS lastE accts).1.accounts =
        (publishLoop env postId db' anyS lastE accts).1.accounts ∧
      (publishLoop env postId db anyS lastE accts).2.1 =
        (publishLoop env postId db' anyS lastE accts).2.1 ∧
      (publishLoop env postId db anyS lastE accts).2.2.1 =
        (publishLoop env postId db' anyS lastE accts).2.2.1 ∧
      (publishLoop env postId db anyS lastE accts).2.2.2 =
        (publishLoop env postId db' anyS lastE accts).2.2.2 := by
  induction accts with
  | nil =>
    intro db db' anyS lastE hp ha
    exact ⟨hp, ha, rfl, rfl, rfl⟩
  | cons acct rest ih =>
    intro db db' anyS lastE hp ha
    obtain ⟨hsp, hsa, hst⟩ := ppta_param env postId acct db db' hp ha
    unfold publishLoop
    dsimp only
    rw [show (publishPostToAccount env db' postId acct).2 =
      (publishPostToAccount env db postId acct).2 from hst.symm]
    cases hstep : (publishPostToAccount env db postId acct).2.2 with
    | ok res =>
      dsimp only
      obtain ⟨h1, h2, h3, h4, h5⟩ := ih (publishPostToAccount env db postId acct).1
        (publishPostToAccount env db' postId acct).1 true lastE hsp hsa
      exact ⟨h1, h2, by rw [h3], by rw [h4], h5⟩
    | error e =>
      dsimp only
      by_cases hn : (e.name == "ProviderRateLimitError") = true
      · rw [if_pos hn, if_pos hn]
        exact ⟨hsp, hsa, rfl, rfl, rfl⟩
      · rw [if_neg hn, if_neg hn]
        dsimp only
        obtain ⟨h1, h2, h3, h4, h5⟩ := ih (publishPostToAccount env db postId acct).1
          (publishPostToAccount env db' postId acct).1 anyS (some e) hsp hsa
        exact ⟨h1, h2, by rw [h3], by rw [h4], h5⟩

/-- C2 (amended) — `publishPost` never reads the Publish Outcome store: a run
against any two prior `PublishResult` collections performs the same adapter
calls (same trace), the same attempts with the same outcomes, and the same
post/account updates.  In particular, a second invocation on an item whose
account already has a `published` outcome re-invokes the adapter for that
account with a new network call rather than skipping it (see the
counterexample refuting the original idempotence claim). -/
theorem publish_ignores_prior_outcomes (env : PubEnv)
    (posts : List PostDoc) (accounts : List SocialAccountDoc)
    (res res' : List PublishResultDoc) (postId : Nat) :
    (publishPostRun env ⟨posts, accounts, res⟩ postId).evs =
      (publishPostRun env ⟨posts, accounts, res'⟩ postId).evs ∧
    (publishPostRun env ⟨posts, accounts, res⟩ postId).attempts =
      (publishPostRun env ⟨posts, accounts, res'⟩ postId).attempts ∧
    (publishPostRun env ⟨posts, accounts, res⟩ postId).anySuccess =
      (publishPostRun env ⟨posts, accounts, res'⟩ postId).anySuccess ∧
    (publishPostRun env ⟨posts, accounts, res⟩ postId).lastError =
      (publishPostRun env ⟨posts, accounts, res'⟩ postId).lastError ∧
    (publishPostRun env ⟨posts, accounts, res⟩ postId).rlInfo =
      (publishPostRun env ⟨posts, accounts, res'⟩ postId).rlInfo ∧
    (publishPostRun env ⟨posts, accounts, res⟩ postId).outcome =
      (publishPostRun env ⟨posts, accounts, res'⟩ postId).outcome ∧
    (publishPostRun env ⟨posts, accounts, res⟩ postId).db.posts =
      (publishPostRun env ⟨posts, accounts, res'⟩ postId).db.posts ∧
    (publishPostRun env ⟨posts, accounts, res⟩ postId).db.accounts =
      (publishPostRun env ⟨posts, accounts, res'⟩ postId).db.accounts := by
  unfold publishPostRun
  dsimp only
  cases hfp : findPost posts postId with
  | none => exact ⟨rfl, rfl, rfl, rfl, rfl, rfl, rfl, rfl⟩
  | some post =>
    dsimp only
    by_cases hne : post.socialAccountIds = []
    · rw [if_pos hne, if_pos hne]
      exact ⟨rfl, rfl, rfl, rfl, rfl, rfl, rfl, rfl⟩
    · rw [if_neg hne, if_neg hne]
      try dsimp only
      obtain ⟨h1, h2, h3, h4, h5⟩ := publishLoop_param env postId
        post.socialAccountIds
        ⟨updatePost posts postId fun p => { p with status := .publishing },
          accounts, res⟩
        ⟨updatePost posts postId fun p => { p with status := .publishing },
          accounts, res'⟩
        false none rfl rfl
      rw [← h1, ← h2, ← h3, ← h4, ← h5]
      cases hloop : (publishLoop env postId
          ⟨updatePost posts postId fun p => { p with status := .publishing },
            accounts, res⟩ false none post.socialAccountIds).2.2.2.2.2 <;>
        exact ⟨rfl, rfl, rfl, rfl, rfl, rfl, rfl, rfl⟩

/-- C2 (counterexample) — Post 21's account 11 already carries a `published`
outcome from a prior pass, yet a new `publishPost` run still invokes the
platform adapter's publish operation for account 11 (the trace contains the
adapter call): the claimed skip-without-network-call does not happen. -/
theorem publish_reinvokes_adapter_cex :
    ((lookupResult dbPrior.results 21 11).map fun r => r.status) =
      some "published" ∧
    Ev.adapterPublish 11 ∈ (publishPostRun envMix dbPrior 21).evs := by
  refine ⟨by decide, by decide⟩

/-! ## Credential vault -/

theorem b64Char_ne_58 (v : Nat) : b64Char v ≠ 58 := by
  unfold b64Char
  repeat' split
  all_goals omega

theorem b64Char_ne_61 (v : Nat) : b64Char v ≠ 61 := by
  unfold b64Char
  repeat' split
  all_goals omega

theorem b64Val_b64Char : ∀ v < 64, b64Val (b64Char v) = v := by decide

theorem b64Encode_ne58 : ∀ (l : List Nat), ∀ x ∈ b64Encode l, x ≠ 58
  | [] => by simp [b64Encode]
  | [a] => by
    simp only [b64Encode, List.mem_cons, List.not_mem_nil, or_false]
    intro x hx
    rcases hx with h | h | h | h <;> subst h
    · exact b64Char_ne_58 _
    · exact b64Char_ne_58 _
    · omega
    · omega
  | [a, b] => by
    simp only [b64Encode, List.mem_cons, List.not_mem_nil, or_false]
    intro x hx
    rcases hx with h | h | h | h <;> subst h
    · exact b64Char_ne_58 _
    · exact b64Char_ne_58 _
    · exact b64Char_ne_58 _
    · omega
  | a :: b :: c :: rest => by
    simp only [b64Encode, List.mem_cons]
    intro x hx
    rcases hx with h | h | h | h | h
    · subst h; exact b64Char_ne_58 _
    · subst h; exact b64Char_ne_58 _
    · subst h; exact b64Char_ne_58 _
    · subst h; exact b64Char_ne_58 _
    · exact b64Encode_ne58 rest x h

theorem b64Encode_ne_nil : ∀ (l : List Nat), l ≠ [] → b64Encode l ≠ []
  | [], h => absurd rfl h
  | [_], _ => by simp [b64Encode]
  | [_, _], _ => by simp [b64Encode]
  | _ :: _ :: _ :: _, _ => by simp [b64Encode]

theorem b64_roundtrip : ∀ (l : List Nat), (∀ b ∈ l, b < 256) →
    b64Decode (b64Encode l) = l
  | [], _ => rfl
  | [a], h => by
    have ha : a < 256 := h a (by simp)
    simp only [b64Encode, b64Decode, if_pos rfl]
    rw [b64Val_b64Char _ (by omega), b64Val_b64Char _ (by omega)]
    have : a / 4 * 4 + a % 4 * 16 / 16 = a := by omega
    rw [this]
    simp
  | [a, b], h => by
    have ha : a < 256 := h a (by simp)
    have hb : b < 256 := h b (by simp)
    simp only [b64Encode, b64Decode]
    rw [if_neg (b64Char_ne_61 _)]
    rw [b64Val_b64Char _ (by omega), b64Val_b64Char _ (by omega),
      b64Val_b64Char _ (by omega)]
    have h1 : a / 4 * 4 + (a % 4 * 16 + b / 16) / 16 = a := by omega
    have h2 : (a % 4 * 16 + b / 16) % 16 * 16 + b % 16 * 4 / 4 = b := by omega
    rw [h1, h2]
    simp
  | a :: b :: c :: rest, h => by
    have ha : a < 256 := h a (by simp)
    have hb : b < 256 := h b (by simp)
    have hc : c < 256 := h c (by simp)
    have hrest : ∀ x ∈ rest, x < 256 := fun x hx =>
      h x (by simp [hx])
    simp only [b64Encode, b64Decode]
    rw [if_neg (b64Char_ne_61 _), if_neg (b64Char_ne_61 _)]
    rw [b64Val_b64Char _ (by omega), b64Val_b64Char _ (by omega),
      b64Val_b64Char _ (by omega), b64Val_b64Char _ (by omega)]
    have h1 : a / 4 * 4 + (a % 4 * 16 + b / 16) / 16 = a := by omega
    have h2 : (a % 4 * 16 + b / 16) % 16 * 16 + (b % 16 * 4 + c / 64) / 4 = b := by
      omega
    have h3 : (b % 16 * 4 + c / 64) % 4 * 64 + c % 64 = c := by omega
    rw [h1, h2, h3, b64_roundtrip rest hrest]

theorem splitColon_no_sep : ∀ (l : List Nat), (∀ x ∈ l, x ≠ 58) →
    splitColon l = [l]
  | [], _ => rfl
  | c :: rest, h => by
    unfold splitColon
    rw [if_neg (h c (by simp))]
    rw [splitColon_no_sep rest (fun x hx => h x (by simp [hx]))]

theorem splitColon_append : ∀ (a b : List Nat), (∀ x ∈ a, x ≠ 58) →
    splitColon (a ++ 58 :: b) = a :: splitColon b
  | [], b, _ => by
    simp [splitColon]
  | c :: rest, b, h => by
    rw [List.cons_append]
    conv_lhs => rw [splitColon]
    rw [if_neg (h c (by simp))]
    rw [splitColon_append rest b (fun x hx => h x (by simp [hx]))]

theorem ctrXor_length (g : GcmModel) (iv : List Nat) :
    ∀ (i : Nat) (l : List Nat), (ctrXor g iv i l).length = l.length
  | _, [] => rfl
  | i, b :: rest => by
    unfold ctrXor
    rw [List.length_cons, List.length_cons, ctrXor_length g iv (i + 1) rest]

theorem ctrXor_ctrXor (g : GcmModel) (iv : List Nat) :
    ∀ (i : Nat) (l : List Nat), ctrXor g iv i (ctrXor g iv i l) = l
  | _, [] => rfl
  | i, b :: rest => by
    have hin : ctrXor g iv i (b :: rest)
        = (b ^^^ g.ks iv i) :: ctrXor g iv (i + 1) rest := rfl
    rw [hin]
    have hout : ctrXor g iv i
          ((b ^^^ g.ks iv i) :: ctrXor g iv (i + 1) rest)
        = ((b ^^^ g.ks iv i) ^^^ g.ks iv i)
          :: ctrXor g iv (i + 1) (ctrXor g iv (i + 1) rest) := rfl
    rw [hout, ctrXor_ctrXor g iv (i + 1) rest, Nat.xor_assoc, Nat.xor_self,
      Nat.xor_zero]

theorem ctrXor_lt (g : GcmModel) (iv : List Nat) :
    ∀ (i : Nat) (l : List Nat), (∀ b ∈ l, b < 256) →
      ∀ x ∈ ctrXor g iv i l, x < 256
  | _, [], _ => by simp [ctrXor]
  | i, b :: rest, h => by
    unfold ctrXor
    intro x hx
    rcases List.mem_cons.mp hx with h1 | h1
    · subst h1
      have h256 : (256 : Nat) = 2 ^ 8 := by norm_num
      rw [h256]
      exact Nat.xor_lt_two_pow (h256 ▸ h b (by simp)) (h256 ▸ g.ks_lt iv i)
    · exact ctrXor_lt g iv (i + 1) rest (fun y hy => h y (by simp [hy])) x h1

/-- Slicing the framed payload `iv ++ tag ++ ct` recovers the three parts. -/
theorem frame_slices (iv tag ct : List Nat) (hivlen : iv.length = 12)
    (htaglen : tag.length = 16) :
    (iv ++ tag ++ ct).take 12 = iv ∧
    ((iv ++ tag ++ ct).drop 12).take 16 = tag ∧
    (iv ++ tag ++ ct).drop 28 = ct := by
  refine ⟨?_, ?_, ?_⟩
  · rw [List.append_assoc, ← hivlen, List.take_left]
  · rw [List.append_assoc, ← hivlen, List.drop_left, ← htaglen,
      List.take_left]
  · have h28 : (28 : Nat) = (iv ++ tag).length := by
      rw [List.length_append, hivlen, htaglen]
    rw [h28, List.drop_left]

/-- `decrypt` undoes the framing produced by `encrypt`: on
`v1:` ++ base64(`iv | tag(iv, ct) | ct`) with an in-range payload it passes
the format, length and tag checks and returns the keystream-XOR of `ct`. -/
theorem tokDecrypt_frame (g : GcmModel) (iv ct : List Nat)
    (hivlen : iv.length = 12)
    (hlt : ∀ b ∈ iv ++ g.tagFn iv ct ++ ct, b < 256) :
    tokDecrypt g (v1Colon ++ b64Encode (iv ++ g.tagFn iv ct ++ ct)) =
      .ok (ctrXor g iv 0 ct) := by
  have hlen : (iv ++ g.tagFn iv ct ++ ct).length = 28 + ct.length := by
    rw [List.length_append, List.length_append, hivlen, g.tag_len]
  have hCne : iv ++ g.tagFn iv ct ++ ct ≠ [] := by
    intro h0
    rw [h0] at hlen
    simp only [List.length_nil] at hlen
    omega
  have hne : b64Encode (iv ++ g.tagFn iv ct ++ ct) ≠ [] :=
    b64Encode_ne_nil _ hCne
  have hsplit : splitColon (v1Colon ++ b64Encode (iv ++ g.tagFn iv ct ++ ct))
      = [[118, 49], b64Encode (iv ++ g.tagFn iv ct ++ ct)] := by
    have h1 : v1Colon ++ b64Encode (iv ++ g.tagFn iv ct ++ ct)
        = [118, 49] ++ 58 :: b64Encode (iv ++ g.tagFn iv ct ++ ct) := rfl
    rw [h1, splitColon_append [118, 49] _
        (by intro x hx; simp at hx; rcases hx with h | h <;> omega),
      splitColon_no_sep _ (b64Encode_ne58 _)]
  unfold tokDecrypt
  rw [if_neg (by simp [v1Colon])]
  dsimp only
  rw [hsplit]
  simp only [List.head?_cons, List.getElem?_cons_succ, List.getElem?_cons_zero,
    jsTruthyPart, Option.getD_some]
  rw [if_neg (by
    simp
    intro h0
    rw [← List.append_assoc] at h0
    exact hne h0)]
  rw [b64_roundtrip _ hlt]
  rw [hlen]
  rw [if_neg (by omega)]
  obtain ⟨h1, h2, h3⟩ := frame_slices iv (g.tagFn iv ct) ct hivlen
    (g.tag_len iv ct)
  rw [h1, h2, h3]
  rw [if_neg (fun hcc => hcc rfl)]

/-- C10: for every plaintext byte string and 12-byte in-range IV, under the
CTR-structure model of AES-256-GCM the credential vault round-trips:
`TokenService.decrypt (TokenService.encrypt x) = x`; and at the boundary,
`encrypt` maps both `null` and the empty string to the empty string, and
`decrypt` maps the empty string back to the empty string without error, so
empty secrets pass through unencrypted. -/
theorem token_vault_roundtrip (g : GcmModel) (iv pt : List Nat)
    (hivlen : iv.length = 12) (hiv : ∀ b ∈ iv, b < 256)
    (hpt : ∀ b ∈ pt, b < 256) :
    tokDecrypt g (tokEncrypt g iv pt) = .ok pt ∧
    tokEncryptOpt g iv none = [] ∧
    tokEncrypt g iv [] = [] ∧
    tokDecrypt g [] = .ok [] := by
  refine ⟨?_, rfl, rfl, rfl⟩
  by_cases hem : pt = []
  · subst hem
    rfl
  · have hEnc : tokEncrypt g iv pt
        = v1Colon ++ b64Encode
            (iv ++ g.tagFn iv (ctrXor g iv 0 pt) ++ ctrXor g iv 0 pt) := by
      unfold tokEncrypt
      rw [if_neg hem]
    have hlt : ∀ b ∈ iv ++ g.tagFn iv (ctrXor g iv 0 pt) ++ ctrXor g iv 0 pt,
        b < 256 := by
      intro b hb
      rcases List.mem_append.mp hb with hb1 | hb1
      · rcases List.mem_append.mp hb1 with hb2 | hb2
        · exact hiv b hb2
        · exact g.tag_lt _ _ b hb2
      · exact ctrXor_lt g iv 0 pt hpt b hb1
    rw [hEnc, tokDecrypt_frame g iv (ctrXor g iv 0 pt) hivlen hlt,
      ctrXor_ctrXor]

/-- The round-trip theorem instantiated at the trivial GCM model, a zero IV
and the two-byte plaintext `hi`. -/
theorem token_vault_roundtrip_witness :
    (List.replicate 12 0 : List Nat).length = 12 ∧
    (∀ b ∈ (List.replicate 12 0 : List Nat), b < 256) ∧
    (∀ b ∈ ([104, 105] : List Nat), b < 256) ∧
    (tokDecrypt gcmZero (tokEncrypt gcmZero (List.replicate 12 0) [104, 105])
        = .ok [104, 105] ∧
      tokEncryptOpt gcmZero (List.replicate 12 0) none = [] ∧
      tokEncrypt gcmZero (List.replicate 12 0) [] = [] ∧
      tokDecrypt gcmZero [] = .ok []) :=
  ⟨by decide, by decide, by decide,
    token_vault_roundtrip gcmZero (List.replicate 12 0) [104, 105]
      (by decide) (by decide) (by decide)⟩

end Postflow
